import Mathlib

set_option maxRecDepth 400000

/-!
# Verification of the model-capability extraction pipeline of `app.js`

This file shallowly embeds the extraction pipeline of the repository's
`src/app.js` (the functions `parseModelData`, `extractModelsFromBlock`,
`parseModelDetails`, `findModelDetails`, `getProviderFromModelName`,
`getProviderDescription`) and proves or refutes the specified properties.

Strings are embedded as `List Char`.  Every JavaScript regular-expression
site of the source is embedded as a dedicated scanning function that
implements that fixed pattern's semantics (leftmost match, greedy or lazy
repetition with the backtracking behaviour the concrete pattern admits).
`parseInt(x, 10)` applied to an all-digit string is embedded as
`jsParseIntDigits` (`none` embeds the JavaScript `NaN` result on the empty
string).  `parseFloat` results are kept as their source tokens, since no
verified property depends on their numeric value.  `localeCompare` is
embedded as code-point lexicographic comparison, which agrees with the
default-locale collation on the ASCII model names at issue.
-/

namespace AppJs

/-- Strings of the embedded program. -/
abbrev Str := List Char

/-- JavaScript `\s` (whitespace class), restricted to the ASCII whitespace
characters that occur in the upstream documents. -/
def isWs (c : Char) : Bool :=
  c = ' ' || c = '\t' || c = '\n' || c = '\r' || c = '\x0b' || c = '\x0c'

/-- JavaScript `\w` (word class), ASCII. -/
def isWordC (c : Char) : Bool :=
  c.isDigit || (('a' ≤ c) && (c ≤ 'z')) || (('A' ≤ c) && (c ≤ 'Z')) || c = '_'

/-- The apostrophe character that quotes identifiers in the upstream text. -/
def qc : Char := Char.ofNat 39

/-- A quote character of the class `['"]`. -/
def isQuote (c : Char) : Bool := c = qc || c = '"'

/-- JavaScript `String.prototype.trim`. -/
def trimL (s : Str) : Str :=
  ((s.dropWhile isWs).reverse.dropWhile isWs).reverse

/-- JavaScript `a.includes(b)`: `b` occurs as a contiguous substring of `a`. -/
def jsIncludes (s pat : Str) : Bool :=
  match s with
  | [] => pat.isEmpty
  | _ :: t => pat.isPrefixOf s || jsIncludes t pat

/-- JavaScript `a.startsWith(b)`. -/
def jsStartsWith (s pat : Str) : Bool := pat.isPrefixOf s

/-- JavaScript `toLowerCase` on the ASCII text at issue. -/
def toLowerL (s : Str) : Str := s.map Char.toLower

/-- JavaScript `s.split(sep)` for a non-empty literal separator, with fuel
(`fuel` at least `s.length + 1` gives the exact splitting). -/
def splitOnSubFuel (sep : Str) : Nat → Str → List Str
  | 0, s => [s]
  | _ + 1, [] => if sep.isPrefixOf [] then [[], []] else [[]]
  | fuel + 1, s@(c :: t) =>
    if sep.isPrefixOf s && !sep.isEmpty then
      [] :: splitOnSubFuel sep fuel (s.drop sep.length)
    else
      match splitOnSubFuel sep fuel t with
      | h :: r => (c :: h) :: r
      | [] => [[c]]

/-- JavaScript `s.split(sep)` for a non-empty literal separator. -/
def splitOnSub (s sep : Str) : List Str := splitOnSubFuel sep (s.length + 1) s

/-- JavaScript `s.split(c)` for a one-character separator. -/
def splitOnChar (sep : Char) : Str → List Str
  | [] => [[]]
  | c :: t =>
    if c = sep then [] :: splitOnChar sep t
    else
      match splitOnChar sep t with
      | h :: r => (c :: h) :: r
      | [] => [[c]]

/-- `parseInt(d, 10)` on an all-digit string `d` (the only shape the source
applies it to, after `replace(/[^0-9]/g, '')` or a `(\d+)` capture):
`none` embeds the `NaN` returned on the empty string. -/
def jsParseIntDigits (s : Str) : Option Nat :=
  if s.isEmpty then none
  else some (s.foldl (fun n c => n * 10 + (c.toNat - 48)) 0)

/-- Leftmost-match scan: the first position at which the literal `lit`
occurs and the continuation `k` succeeds on the text after it (the regex
engine's position-by-position retry). -/
def scanWith (lit : Str) (k : Str → Option α) : Str → Option α
  | [] => none
  | s@(_ :: t) =>
    (if lit.isPrefixOf s then k (s.drop lit.length) else none) <|> scanWith lit k t

/-- The tail part `\s*([^,\n]+)` of the field patterns, with the greedy
backtracking of `\s*` made explicit: the capture starts at the last
position `k` inside or just after the whitespace run such that the
character there is not `,`/`\n`; when the run is followed directly by
`,`, `\n` or the end, the capture degenerates to the last non-newline
whitespace character of the run (if any). -/
def wsCaptureBy (bad : Char → Bool) (s : Str) : Option Str :=
  let w := s.takeWhile isWs
  let rest := s.dropWhile isWs
  let lastOk : Option Str :=
    match w.reverse.dropWhile bad with
    | [] => none
    | c :: _ => some [c]
  match rest with
  | c :: _ => if bad c then lastOk else some (rest.takeWhile (fun d => !bad d))
  | [] => lastOk

/-- `[^,\n]` exclusion set. -/
def badCommaNL (c : Char) : Bool := c = ',' || c = '\n'

/-- `[^,\n}]` exclusion set (the `sizeGb` pattern). -/
def badCommaNLBrace (c : Char) : Bool := c = ',' || c = '\n' || c = '}'

/-- Embedding of `text.match(/LIT\s*([^,\n]+)/)`: `lit` is the literal part
(field name and colon) and the returned string is capture group 1. -/
def scanField (lit : Str) (s : Str) : Option Str :=
  scanWith lit (wsCaptureBy badCommaNL) s

/-- The tail `\s*['"]([^'"]+)['"]` of the quoted-value patterns:
whitespace, a quote, a non-empty run of non-quote characters, a quote. -/
def quotedCaptureAt (s : Str) : Option Str :=
  let rest := s.dropWhile isWs
  match rest with
  | c :: t =>
    if isQuote c then
      let cap := t.takeWhile (fun d => !isQuote d)
      match t.drop cap.length with
      | _ :: _ => if cap.isEmpty then none else some cap
      | [] => none
    else none
  | [] => none

/-- Embedding of `text.match(/LIT\s*['"]([^'"]+)['"]/)`. -/
def scanQuotedField (lit : Str) (s : Str) : Option Str :=
  scanWith lit quotedCaptureAt s

/-- The tail `\s*(\d+)` of the numeric slider patterns. -/
def digitsCaptureAt (s : Str) : Option Str :=
  let rest := s.dropWhile isWs
  let cap := rest.takeWhile Char.isDigit
  if cap.isEmpty then none else some cap

/-- Embedding of `text.match(/LIT\s*(\d+)/)`. -/
def scanDigitsField (lit : Str) (s : Str) : Option Str :=
  scanWith lit digitsCaptureAt s

/-! ## The capability record built by `parseModelDetails` (src/app.js 466-607) -/

/-- `cost` sub-object.  Each field holds the raw matched token of the
corresponding `parseFloat(...)` call (no verified property depends on the
floating-point value). -/
structure CostInfo where
  input : Option Str := none
  output : Option Str := none
  cacheRead : Option Str := none
  cacheWrite : Option Str := none
deriving DecidableEq, Repr

/-- The dynamically-shaped `details` object.  `none` embeds an absent
property.  `reservedOutputTokenSpace`: `Sum.inl` is the `parseInt` result
(`Option Nat`, `none` for `NaN`), `Sum.inr` the sentinel string the source
stores for a `null` value.  `supportsSystemMessage`: `some none` embeds the
boolean `false`, `some (some l)` the label string. -/
structure Details where
  contextWindow : Option (Option Nat) := none
  reservedOutputTokenSpace : Option (Sum (Option Nat) Str) := none
  supportsSystemMessage : Option (Option Str) := none
  supportsFIM : Option Bool := none
  specialToolFormat : Option Str := none
  hasReasoning : Option Bool := none
  canTurnOffReasoning : Option Bool := none
  canIOReasoning : Option Bool := none
  reasoningSliderType : Option Str := none
  reasoningBudgetMin : Option Nat := none
  reasoningBudgetMax : Option Nat := none
  reasoningBudgetDefault : Option Nat := none
  reasoningEffortValues : Option (List Str) := none
  reasoningEffortDefault : Option Str := none
  thinkTags : Option (Str × Str) := none
  cost : Option CostInfo := none
  downloadable : Option Bool := none
  downloadSize : Option Str := none
deriving DecidableEq, Repr

/-- `contextWindow` extraction (src/app.js 470-473):
`parseInt(match[1].replace(/[^0-9]/g, ''), 10)`. -/
def cwField (s : Str) : Option (Option Nat) :=
  (scanField "contextWindow:".data s).map
    (fun cap => jsParseIntDigits (cap.filter Char.isDigit))

/-- `reservedOutputTokenSpace` extraction (src/app.js 476-481): the trimmed
value `null` yields the sentinel string, any other value is digit-stripped
and parsed. -/
def rotsField (s : Str) : Option (Sum (Option Nat) Str) :=
  (scanField "reservedOutputTokenSpace:".data s).map (fun cap =>
    let value := trimL cap
    if value = "null".data then Sum.inr "Not specified".data
    else Sum.inl (jsParseIntDigits (value.filter Char.isDigit)))

/-- `supportsSystemMessage` extraction (src/app.js 484-488): literal
`false`, otherwise the value with all apostrophes removed. -/
def sysMsgField (s : Str) : Option (Option Str) :=
  (scanField "supportsSystemMessage:".data s).map (fun cap =>
    let value := trimL cap
    if value = "false".data then none
    else some (value.filter (fun c => c ≠ qc)))

/-- `supportsFIM` extraction (src/app.js 491-494). -/
def fimField (s : Str) : Option Bool :=
  (scanField "supportsFIM:".data s).map (fun cap => trimL cap = "true".data)

/-- `specialToolFormat` extraction (src/app.js 497-500). -/
def toolFormatField (s : Str) : Option Str :=
  scanQuotedField "specialToolFormat:".data s

/-- The alternation tail `\s*(\{[^}]+\}|false)` of the
`reasoningCapabilities` pattern (src/app.js 503): a brace group running to
the first `}`, or the literal `false`. -/
def braceOrFalseAt (s : Str) : Option Str :=
  let rest := s.dropWhile isWs
  match rest with
  | '{' :: t =>
    let body := t.takeWhile (fun c => c ≠ '}')
    if body.isEmpty then none
    else
      match t.drop body.length with
      | '}' :: _ => some ('{' :: (body ++ ['}']))
      | _ => none
  | _ => if "false".data.isPrefixOf rest then some "false".data else none

/-- The tail `\s*(\{[^}]+\})` of the `reasoningSlider` pattern
(src/app.js 522). -/
def braceAt (s : Str) : Option Str :=
  let rest := s.dropWhile isWs
  match rest with
  | '{' :: t =>
    let body := t.takeWhile (fun c => c ≠ '}')
    if body.isEmpty then none
    else
      match t.drop body.length with
      | '}' :: _ => some ('{' :: (body ++ ['}']))
      | _ => none
  | _ => none

/-- The think-tag pattern
`openSourceThinkTags:\s*\[\s*['"]([^'"]+)['"]\s*,\s*['"]([^'"]+)['"]\s*\]`
(src/app.js 555), applied after the literal part. -/
def thinkTagsAt (s : Str) : Option (Str × Str) := do
  let r0 := s.dropWhile isWs
  match r0 with
  | '[' :: t0 => do
    let a ← quotedCaptureAt t0
    let r1 := (t0.dropWhile isWs).drop (a.length + 2)
    let r1 := r1.dropWhile isWs
    match r1 with
    | ',' :: t1 => do
      let b ← quotedCaptureAt t1
      let r2 := (t1.dropWhile isWs).drop (b.length + 2)
      let r2 := r2.dropWhile isWs
      match r2 with
      | ']' :: _ => some (a, b)
      | _ => none
    | _ => none
  | _ => none

/-- The bracket tail `\s*\[([^\]]+)\]` of the effort-values pattern
(src/app.js 540). -/
def bracketAt (s : Str) : Option Str :=
  let rest := s.dropWhile isWs
  match rest with
  | '[' :: t =>
    let body := t.takeWhile (fun c => c ≠ ']')
    if body.isEmpty then none
    else
      match t.drop body.length with
      | ']' :: _ => some body
      | _ => none
  | _ => none

/-- The reasoning-related fields of `details` (src/app.js 502-560),
extracted from the captured `reasoningCapabilities` value. -/
structure ReasoningPart where
  hasReasoning : Option Bool := none
  canTurnOffReasoning : Option Bool := none
  canIOReasoning : Option Bool := none
  reasoningSliderType : Option Str := none
  reasoningBudgetMin : Option Nat := none
  reasoningBudgetMax : Option Nat := none
  reasoningBudgetDefault : Option Nat := none
  reasoningEffortValues : Option (List Str) := none
  reasoningEffortDefault : Option Str := none
  thinkTags : Option (Str × Str) := none
deriving DecidableEq, Repr

/-- Embedding of the `reasoningCapabilities` extraction block
(src/app.js 502-560). -/
def reasoningPart (s : Str) : ReasoningPart :=
  match scanWith "reasoningCapabilities:".data braceOrFalseAt s with
  | none => {}
  | some rawValue =>
    let value := trimL rawValue
    if value = "false".data then { hasReasoning := some false }
    else
      let canTurnOff := (scanField "canTurnOffReasoning:".data value).map
        (fun cap => decide (trimL cap = "true".data))
      let canIO := (scanField "canIOReasoning:".data value).map
        (fun cap => decide (trimL cap = "true".data))
      let slider := scanWith "reasoningSlider:".data braceAt value
      let sliderType := slider.bind (fun sv => scanQuotedField "type:".data sv)
      let r : ReasoningPart :=
        { hasReasoning := some true
          canTurnOffReasoning := canTurnOff
          canIOReasoning := canIO
          reasoningSliderType := sliderType
          thinkTags := scanWith "openSourceThinkTags:".data thinkTagsAt value }
      match slider with
      | none => r
      | some sv =>
        if sliderType = some "budget_slider".data then
          { r with
            reasoningBudgetMin :=
              (scanDigitsField "min:".data sv).bind jsParseIntDigits
            reasoningBudgetMax :=
              (scanDigitsField "max:".data sv).bind jsParseIntDigits
            reasoningBudgetDefault :=
              (scanDigitsField "default:".data sv).bind jsParseIntDigits }
        else if sliderType = some "effort_slider".data then
          { r with
            reasoningEffortValues :=
              (scanWith "values:".data bracketAt sv).map (fun body =>
                (splitOnChar ',' body).map (fun v =>
                  (trimL v).filter (fun c => !isQuote c)))
            reasoningEffortDefault := scanQuotedField "default:".data sv }
        else r

/-- The tail `\s*{\s*([^}]+)\s*}` of the `cost` pattern (src/app.js 563):
the capture is the brace body with its leading whitespace consumed by the
inner `\s*` (an all-whitespace body degenerates to its last character). -/
def costBodyAt (s : Str) : Option Str :=
  let rest := s.dropWhile isWs
  match rest with
  | '{' :: t =>
    let body := t.takeWhile (fun c => c ≠ '}')
    if body.isEmpty then none
    else
      match t.drop body.length with
      | '}' :: _ =>
        let cap := body.dropWhile isWs
        if cap.isEmpty then
          match body.reverse with
          | c :: _ => some [c]
          | [] => none
        else some cap
      | _ => none
  | _ => none

/-- `cost` extraction (src/app.js 563-589); sub-values are kept as their
raw matched tokens. -/
def costField (s : Str) : Option CostInfo :=
  (scanWith "cost:".data costBodyAt s).map (fun body =>
    { input := scanField "input:".data body
      output := scanField "output:".data body
      cacheRead := scanField "cache_read:".data body
      cacheWrite := scanField "cache_write:".data body })

/-- `downloadable` extraction (src/app.js 592-595). -/
def downloadableField (s : Str) : Option Bool :=
  (scanField "downloadable:".data s).map (fun cap => trimL cap ≠ "false".data)

/-- `downloadSize` extraction (src/app.js 597-603): only read when
`downloadable` was matched and is true; the numeric `parseFloat` display is
kept as the source token followed by `GB`. -/
def downloadSizeField (s : Str) : Option Str :=
  match downloadableField s with
  | some true =>
    (scanWith "sizeGb:".data (wsCaptureBy badCommaNLBrace) s).map (fun cap =>
      let sizeValue := trimL cap
      if sizeValue = (qc :: ("not-known".data ++ [qc])) then "Unknown".data
      else sizeValue ++ " GB".data)
  | _ => none

/-- Embedding of `parseModelDetails` (src/app.js 466-607).  Each field of
the source is written independently onto `details`; the record is assembled
once here. -/
def parseModelDetails (s : Str) : Details :=
  let r := reasoningPart s
  { contextWindow := cwField s
    reservedOutputTokenSpace := rotsField s
    supportsSystemMessage := sysMsgField s
    supportsFIM := fimField s
    specialToolFormat := toolFormatField s
    hasReasoning := r.hasReasoning
    canTurnOffReasoning := r.canTurnOffReasoning
    canIOReasoning := r.canIOReasoning
    reasoningSliderType := r.reasoningSliderType
    reasoningBudgetMin := r.reasoningBudgetMin
    reasoningBudgetMax := r.reasoningBudgetMax
    reasoningBudgetDefault := r.reasoningBudgetDefault
    reasoningEffortValues := r.reasoningEffortValues
    reasoningEffortDefault := r.reasoningEffortDefault
    thinkTags := r.thinkTags
    cost := costField s
    downloadable := downloadableField s
    downloadSize := downloadSizeField s }

/-! ## `extractModelsFromBlock` (src/app.js 385-463) -/

/-- A named model entry. -/
structure Model where
  name : Str
  capabilities : Details
deriving DecidableEq, Repr

/-- JavaScript object as an insertion-ordered association list.
`objInsert` embeds `obj[k] = v`: an existing key keeps its position, a new
key is appended.  (The exotic integer-like-key reordering of JavaScript
objects is not modelled; no key at issue is integer-like.) -/
def objInsert (k : Str) (v : α) : List (Str × α) → List (Str × α)
  | [] => [(k, v)]
  | (k', v') :: t => if k = k' then (k', v) :: t else (k', v') :: objInsert k v t

/-- JavaScript `obj[k]` read. -/
def lookupObj (l : List (Str × α)) (k : Str) : Option α :=
  match l with
  | [] => none
  | (k', v) :: t => if k' = k then some v else lookupObj t k

/-- Whether `obj[k]` is set. -/
def hasKey (l : List (Str × α)) (k : Str) : Bool := (lookupObj l k).isSome

/-- The key list of an object. -/
def keysOf (l : List (Str × α)) : List Str := l.map Prod.fst

/-- Lazy capture `([\s\S]+?)` followed by a stop literal: the shortest
non-empty prefix after which `stop` occurs. -/
def lazyUntilAux (stop : Str) : Str → Option Str
  | [] => if stop.isPrefixOf [] then some [] else none
  | s@(c :: t) =>
    if stop.isPrefixOf s then some []
    else (lazyUntilAux stop t).map (fun pre => c :: pre)

/-- `([\s\S]+?)` then `stop`: at least one captured character. -/
def lazyUntil (stop : Str) : Str → Option Str
  | [] => none
  | c :: t => (lazyUntilAux stop t).map (fun pre => c :: pre)

/-- The two block patterns of `extractModelsFromBlock` (src/app.js 387-390):
`const NAME = \{([\s\S]+?)\} as const`, then its `export`-prefixed variant;
the capture is the block body. -/
def findBlockBody (blockName : Str) (content : Str) : Option Str :=
  scanWith ("const ".data ++ blockName ++ " = \x7b".data)
    (lazyUntil "\x7d as const".data) content <|>
  scanWith ("export const ".data ++ blockName ++ " = \x7b".data)
    (lazyUntil "\x7d as const".data) content

/-- The tail of the entry pattern `'([^']+)':\s*\{` after the opening
quote: the name, and the number of characters of the match after the
opening quote (so that the global scan can continue past the match). -/
def matchNameOpen (t : Str) : Option (Str × Nat) :=
  let name := t.takeWhile (fun c => c ≠ qc)
  if name.isEmpty then none
  else
    match t.drop name.length with
    | c1 :: ':' :: r2 =>
      if c1 = qc then
        let w := r2.takeWhile isWs
        match r2.drop w.length with
        | '{' :: _ => some (name, name.length + 2 + w.length + 1)
        | _ => none
      else none
    | _ => none

/-- The global scan `modelNameRegex.exec` loop (src/app.js 413-428):
every non-overlapping match of `'([^']+)':\s*\{` with its `match.index`. -/
def scanModelNamesGo : Nat → Str → Nat → List (Nat × Str)
  | 0, _, _ => []
  | _ + 1, [], _ => []
  | fuel + 1, s@(c :: t), i =>
    if c = qc then
      match matchNameOpen t with
      | some (name, len) =>
        (i, name) :: scanModelNamesGo fuel (s.drop (1 + len)) (i + 1 + len)
      | none => scanModelNamesGo fuel t (i + 1)
    else scanModelNamesGo fuel t (i + 1)

/-- All `'name': {` matches of a block body, with positions. -/
def scanModelNames (s : Str) : List (Nat × Str) :=
  scanModelNamesGo (s.length + 1) s 0

/-- `blockContent.substring(a, b)`. -/
def substringL (s : Str) (a b : Nat) : Str := (s.drop a).take (b - a)

/-- The section-building loop of `extractModelsFromBlock`
(src/app.js 406-436), faithful to its `lastIndex`/`currentModelName`
state: a section is only pushed when `lastIndex > 0`. -/
def buildSectionsGo (blockContent : Str) :
    Nat → Str → List (Nat × Str) → List (Str × Str)
  | lastIndex, currentName, (idx, name) :: rest =>
    (if lastIndex > 0 then [(currentName, substringL blockContent lastIndex idx)]
     else []) ++ buildSectionsGo blockContent idx name rest
  | lastIndex, currentName, [] =>
    if lastIndex > 0 then [(currentName, blockContent.drop lastIndex)] else []

/-- The primary section splitting of a block body. -/
def buildSections (blockContent : Str) : List (Str × Str) :=
  buildSectionsGo blockContent 0 [] (scanModelNames blockContent)

/-- The zero-width split pattern `(?='\w+[-\w\d.]*':)` (src/app.js 440):
does it match at the start of `s`? -/
def isSplitPoint (s : Str) : Bool :=
  match s with
  | c0 :: c :: t =>
    if c0 = qc && isWordC c then
      let run := t.takeWhile (fun d => isWordC d || d = '-' || d = '.')
      match t.drop run.length with
      | c1 :: ':' :: _ => c1 = qc
      | _ => false
    else false
  | _ => false

/-- JavaScript `split` on the zero-width lookahead: cut before every match
position except the start of the current segment. -/
def lookSplitGo : Str → Str → List Str
  | [], acc => [acc.reverse]
  | s@(c :: t), acc =>
    if !acc.isEmpty && isSplitPoint s then acc.reverse :: lookSplitGo t [c]
    else lookSplitGo t (c :: acc)

/-- The fallback splitting of a block body (src/app.js 439-452). -/
def fallbackSections (blockContent : Str) : List (Str × Str) :=
  (lookSplitGo blockContent []).foldl (fun acc sect =>
    match scanWith [qc] (fun t =>
        let cap := t.takeWhile (fun c => c ≠ qc)
        if cap.isEmpty then none
        else
          match t.drop cap.length with
          | c1 :: r =>
            if c1 = qc then
              match r.dropWhile isWs with
              | ':' :: _ => some cap
              | _ => none
            else none
          | [] => none) sect with
    | some modelName => acc ++ [(modelName, sect)]
    | none => acc) []

/-- Embedding of `extractModelsFromBlock` (src/app.js 385-463): locate the
block, split it into sections, parse each section into `modelInfoBlocks`.
A missing block leaves the map unchanged. -/
def extractModelsFromBlock (fileContent : Str) (blockName : Str)
    (modelInfoBlocks : List (Str × Details)) : List (Str × Details) :=
  match findBlockBody blockName fileContent with
  | none => modelInfoBlocks
  | some body =>
    let blockContent := trimL body
    let modelSections := buildSections blockContent
    let modelSections :=
      if modelSections.isEmpty then fallbackSections blockContent
      else modelSections
    modelSections.foldl (fun bs sec =>
      if sec.1.isEmpty then bs else objInsert sec.1 (parseModelDetails sec.2) bs)
      modelInfoBlocks

/-! ## `getProviderFromModelName` and `getProviderDescription`
(src/app.js 327-382) -/

/-- Embedding of `getProviderFromModelName` (src/app.js 353-382). -/
def getProviderFromModelName (modelName : Str) : Option Str :=
  let m := toLowerL modelName
  if jsIncludes m "gpt".data || jsStartsWith m "o1".data ||
      jsStartsWith m "o3".data || jsStartsWith m "o4".data then
    some "openAI".data
  else if jsIncludes m "claude".data then some "anthropic".data
  else if jsIncludes m "grok".data then some "xAI".data
  else if jsIncludes m "gemini".data then some "gemini".data
  else if jsIncludes m "llama".data then some "meta".data
  else if jsIncludes m "mistral".data || jsIncludes m "codestral".data then
    some "mistral".data
  else if jsIncludes m "deepseek".data then some "deepseek".data
  else if jsIncludes m "qwen".data then some "qwen".data
  else none

/-- The fixed description table of `getProviderDescription`
(src/app.js 327-350). -/
def providerDescriptions : List (Str × Str) :=
  [("openAI".data, "OpenAI\x27s cutting-edge models known for state-of-the-art performance across a wide range of tasks.".data),
   ("anthropic".data, "Anthropic\x27s Claude models emphasize safety, helpfulness, and alignment with human values.".data),
   ("xAI".data, "X.AI\x27s Grok models designed to be informative, conversational, and knowledgeable.".data),
   ("gemini".data, "Google\x27s Gemini multimodal models combining text, code, images, and more.".data),
   ("deepseek".data, "DeepSeek\x27s models focusing on deep reasoning and specialized for coding tasks.".data),
   ("ollama".data, "Open-source platform for running local models with easy setup and management.".data),
   ("vLLM".data, "High-throughput, memory-efficient inference engine for large language models.".data),
   ("openRouter".data, "Platform providing unified access to models from multiple providers.".data),
   ("groq".data, "Fast inference platform with optimized infrastructure for LLM performance.".data),
   ("mistral".data, "Models designed for efficiency and performance in a range of enterprise applications.".data),
   ("openAICompatible".data, "Models compatible with OpenAI\x27s API format from various providers.".data),
   ("lmStudio".data, "Desktop application for running LLMs locally with an intuitive interface.".data),
   ("liteLLM".data, "Tool for standardizing API calls across different LLM providers.".data),
   ("googleVertex".data, "Google\x27s Vertex AI platform for machine learning and AI model deployment.".data),
   ("microsoftAzure".data, "Microsoft\x27s cloud-based AI services with integration into Azure.".data),
   ("meta".data, "Meta\x27s Llama family of open source large language models.".data),
   ("qwen".data, "Alibaba Cloud\x27s Qwen models excelling in reasoning and multilingual capabilities.".data),
   ("other".data, "Miscellaneous AI models from various providers.".data)]

/-- Embedding of `getProviderDescription` (src/app.js 327-350). -/
def getProviderDescription (providerName : Str) : Str :=
  match lookupObj providerDescriptions providerName with
  | some d => d
  | none => "AI model provider: ".data ++ providerName

/-! ## `findModelDetails` (src/app.js 610-661) -/

/-- Global replace of `\d+\.\d+` by the empty string (src/app.js 619):
a maximal digit run, a dot, a second digit run. -/
def replaceVersionNums : Nat → Str → Str
  | 0, s => s
  | _ + 1, [] => []
  | fuel + 1, s@(c :: t) =>
    if c.isDigit then
      let d1 := s.takeWhile Char.isDigit
      match s.drop d1.length with
      | '.' :: r =>
        let d2 := r.takeWhile Char.isDigit
        if d2.isEmpty then c :: replaceVersionNums fuel t
        else replaceVersionNums fuel (r.drop d2.length)
      | _ => c :: replaceVersionNums fuel t
    else c :: replaceVersionNums fuel t

/-- Global replace of `\d+b` by the empty string (src/app.js 620):
a maximal digit run directly followed by `b`. -/
def replaceSizeSuffix : Nat → Str → Str
  | 0, s => s
  | _ + 1, [] => []
  | fuel + 1, s@(c :: t) =>
    if c.isDigit then
      let d1 := s.takeWhile Char.isDigit
      match s.drop d1.length with
      | 'b' :: r => replaceSizeSuffix fuel r
      | _ => c :: replaceSizeSuffix fuel t
    else c :: replaceSizeSuffix fuel t

/-- Replace of `:.*$` by the empty string (src/app.js 621): since `.` does
not match a line break and `$` (no `m` flag) only matches the end of input,
this truncates at the leftmost `:` that has no later line break. -/
def replaceColonToEnd : Str → Str
  | [] => []
  | c :: t =>
    if c = ':' && !(t.contains '\n' || t.contains '\r') then []
    else c :: replaceColonToEnd t

/-- The name normalization chain of `findModelDetails` (src/app.js
617-621, 624-628).  Note that the separator class `[-_\s.]` is removed
first, so the later `\d+\.\d+` replace never finds a dot. -/
def normalizeModelName (n : Str) : Str :=
  let s := toLowerL n
  let s := s.filter (fun c => !(c = '-' || c = '_' || c = '.' || isWs c))
  let s := replaceVersionNums (s.length + 1) s
  let s := replaceSizeSuffix (s.length + 1) s
  replaceColonToEnd s

/-- The fixed family table of `findModelDetails` (src/app.js 638-646). -/
def modelFamilies : List (Str × List Str) :=
  [("gpt4".data, ["gpt-4".data, "gpt-4o".data, "gpt-4.1".data, "o4".data]),
   ("gpt3".data, ["gpt-3.5".data, "gpt-3".data]),
   ("claude".data, ["claude-3".data, "claude-3.5".data, "claude-3.7".data,
     "claude-3-opus".data, "claude-3-sonnet".data]),
   ("llama".data, ["llama3".data, "llama-3".data, "llama-3.1".data,
     "llama-3.2".data, "llama-3.3".data]),
   ("gemini".data, ["gemini-1.5".data, "gemini-2.0".data, "gemini-2.5".data]),
   ("mistral".data, ["mistral".data, "ministral".data, "codestral".data]),
   ("qwen".data, ["qwen".data, "qwen-2.5".data, "qwen-3".data, "qwq".data])]

/-- The family fallback loop of `findModelDetails` (src/app.js 649-658). -/
def familyLookup (modelName : Str) (blocks : List (Str × Details)) :
    List (Str × List Str) → Option Details
  | [] => none
  | (_, pats) :: rest =>
    if pats.any (fun p => jsIncludes (toLowerL modelName) (toLowerL p)) then
      match blocks.find? (fun kv =>
          pats.any (fun p => jsIncludes (toLowerL kv.1) (toLowerL p))) with
      | some kv => some kv.2
      | none => familyLookup modelName blocks rest
    else familyLookup modelName blocks rest

/-- Embedding of `findModelDetails` (src/app.js 610-661): direct key match,
then normalized two-way substring match, then the family table. -/
def findModelDetails (modelName : Str) (modelInfoBlocks : List (Str × Details)) :
    Option Details :=
  match lookupObj modelInfoBlocks modelName with
  | some d => some d
  | none =>
    let nq := normalizeModelName modelName
    match modelInfoBlocks.find? (fun kv =>
        let nb := normalizeModelName kv.1
        jsIncludes nq nb || jsIncludes nb nq) with
    | some kv => some kv.2
    | none => familyLookup modelName modelInfoBlocks modelFamilies

/-! ## `parseModelData` (src/app.js 129-324) -/

/-- A provider during the first phase, its `models` property still the list
of model-name strings (src/app.js 148-152, 175). -/
structure ProviderA where
  name : Str
  models : List Str
  description : Str
deriving DecidableEq, Repr

/-- A provider after the association loop: `models` holds `Model` objects
and `unlistedModels` collects the heuristic assignments of
src/app.js 270-276 (the JavaScript absent/empty distinction is immaterial,
an empty array being truthy there). -/
structure ProviderB where
  name : Str
  models : List Model
  description : Str
  unlistedModels : List Model := []
deriving DecidableEq, Repr

/-- The greedy capture pattern `LIT\{([^}]+)\}` of the two top declaration
regexes (src/app.js 137, 158): the body runs to the first `}`, which must
exist. -/
def braceBodyTo (s : Str) : Option Str :=
  let body := s.takeWhile (fun c => c ≠ '}')
  if body.isEmpty then none
  else
    match s.drop body.length with
    | '}' :: _ => some body
    | _ => none

/-- The per-line provider pattern `/^\s*(\w+):\s*\{/` (src/app.js 145). -/
def providerLineName (line : Str) : Option Str :=
  let r := line.dropWhile isWs
  let name := r.takeWhile isWordC
  if name.isEmpty then none
  else
    match r.drop name.length with
    | ':' :: r2 =>
      match r2.dropWhile isWs with
      | '{' :: _ => some name
      | _ => none
    | _ => none

/-- Embedding of the provider extraction (src/app.js 137-155): the
`defaultProviderSettings` body (up to its first `}`), split into lines,
each matching line creating a provider. -/
def extractProviders (fileContent : Str) : List (Str × ProviderA) :=
  match scanWith "export const defaultProviderSettings = \x7b".data
      braceBodyTo fileContent with
  | none => []
  | some body =>
    (splitOnChar '\n' (trimL body)).foldl (fun provs line =>
      match providerLineName line with
      | some providerName =>
        objInsert providerName
          ⟨providerName, [], getProviderDescription providerName⟩ provs
      | none => provs) []

/-- The unanchored pattern `/(\w+):\s*\[/` (src/app.js 168): leftmost
position whose maximal word run is followed by `:`, whitespace and `[`. -/
def scanProvArrayName : Str → Option Str
  | [] => none
  | s@(c :: t) =>
    (if isWordC c then
      let run := s.takeWhile isWordC
      match s.drop run.length with
      | ':' :: r =>
        match r.dropWhile isWs with
        | '[' :: _ => some run
        | _ => none
      | _ => none
     else none) <|> scanProvArrayName t

/-- All matches of `/'([^']+)'/g` (src/app.js 173), already unquoted as by
the `replace(/'/g, '')` at src/app.js 175. -/
def allQuotedGo : Nat → Str → List Str
  | 0, _ => []
  | _ + 1, [] => []
  | fuel + 1, c :: t =>
    if c = qc then
      let cap := t.takeWhile (fun d => d ≠ qc)
      match t.drop cap.length with
      | c1 :: r =>
        if c1 = qc && !cap.isEmpty then cap :: allQuotedGo fuel r
        else allQuotedGo fuel t
      | [] => []
    else allQuotedGo fuel t

/-- All quoted literals of a section. -/
def allQuoted (s : Str) : List Str := allQuotedGo (s.length + 1) s

/-- Embedding of the explicit model-list extraction (src/app.js 158-180):
the `defaultModelsOfProvider` body split on `],`, each section naming a
declared provider receiving its quoted model names (kept unchanged when the
section holds no quoted literal, matching the `if (modelMatches)` guard). -/
def applyDefaultModels (fileContent : Str) (provs : List (Str × ProviderA)) :
    List (Str × ProviderA) :=
  match scanWith "export const defaultModelsOfProvider = \x7b".data
      braceBodyTo fileContent with
  | none => provs
  | some body =>
    (splitOnSub (trimL body) "],".data).foldl (fun ps sect =>
      match scanProvArrayName sect with
      | some providerName =>
        if hasKey ps providerName then
          let modelMatches := allQuoted sect
          if modelMatches.isEmpty then ps
          else
            match lookupObj ps providerName with
            | some p => objInsert providerName { p with models := modelMatches } ps
            | none => ps
        else ps
      | none => ps) provs

/-- The discovery pattern
`/const\s+(\w+ModelOptions\w*)\s*=\s*\{([^}]+)\}\s*as\s*const/g`
(src/app.js 186) matched at the start of `s`; returns the captured name and
the text after the whole match.  Note that the `[^}]+` part stops at the
first `}`, so a block whose entries are nested objects never matches. -/
def matchBlockDeclAt (s : Str) : Option (Str × Str) :=
  if "const".data.isPrefixOf s then
    let r0 := s.drop 5
    let ws1 := r0.takeWhile isWs
    if ws1.isEmpty then none
    else
      let r1 := r0.drop ws1.length
      let run := r1.takeWhile isWordC
      if run.isEmpty then none
      else if !jsIncludes (run.drop 1) "ModelOptions".data then none
      else
        let r2 := (r1.drop run.length).dropWhile isWs
        match r2 with
        | '=' :: r3 =>
          match r3.dropWhile isWs with
          | '{' :: r4 =>
            let body := r4.takeWhile (fun c => c ≠ '}')
            if body.isEmpty then none
            else
              match r4.drop body.length with
              | '}' :: r5 =>
                let r6 := r5.dropWhile isWs
                if "as".data.isPrefixOf r6 then
                  let r7 := (r6.drop 2).dropWhile isWs
                  if "const".data.isPrefixOf r7 then some (run, r7.drop 5)
                  else none
                else none
              | _ => none
          | _ => none
        | _ => none
  else none

/-- The `allModelBlocksRegex.exec` discovery loop (src/app.js 186-193):
all captured block names, in match order. -/
def findModelOptionBlocks : Nat → Str → List Str
  | 0, _ => []
  | _ + 1, [] => []
  | fuel + 1, s@(_ :: t) =>
    match matchBlockDeclAt s with
    | some (name, rest) => name :: findModelOptionBlocks fuel rest
    | none => findModelOptionBlocks fuel t

/-- The fixed block names extracted explicitly (src/app.js 196-207). -/
def knownBlockNames : List Str :=
  ["openAIModelOptions".data, "anthropicModelOptions".data,
   "xAIModelOptions".data, "geminiModelOptions".data,
   "openSourceModelOptions_assumingOAICompat".data,
   "deepseekModelOptions".data, "mistralModelOptions".data,
   "groqModelOptions".data, "ollamaModelOptions".data,
   "openRouterModelOptions_assumingOpenAICompat".data,
   "googleVertexModelOptions".data, "microsoftAzureModelOptions".data]

/-- The full `modelInfoBlocks` map (src/app.js 183-207): discovered blocks
first, then the fixed list. -/
def buildModelInfoBlocks (fileContent : Str) : List (Str × Details) :=
  let discovered := findModelOptionBlocks (fileContent.length + 1) fileContent
  let blocks := discovered.foldl
    (fun bs n => extractModelsFromBlock fileContent n bs) []
  knownBlockNames.foldl
    (fun bs n => extractModelsFromBlock fileContent n bs) blocks

/-- The constant `extraModels` map (src/app.js 210); it is never written. -/
def extraModels : List (Str × List Str) := []

/-- Code-point lexicographic order, the embedding of the default-locale
`localeCompare` on the ASCII names at issue. -/
def lexLt : Str → Str → Bool
  | _, [] => false
  | [], _ :: _ => true
  | a :: s, b :: t => if a < b then true else if b < a then false else lexLt s t

/-- The ascending comparator `(a, b) => a.name.localeCompare(b.name)`
(src/app.js 252). -/
def leName (a b : Model) : Bool := !lexLt b.name a.name

/-- The comparator as a relation. -/
def leNameR (a b : Model) : Prop := leName a b = true

instance : DecidableRel leNameR := fun a b => by
  unfold leNameR; infer_instance

/-- The `Array.prototype.sort` of src/app.js 252, embedded as a stable
comparison sort (stable sorts agree on a total comparator). -/
def sortModels (ms : List Model) : List Model := List.insertionSort leNameR ms

/-- The duplicate-removal filter with its `uniqueModels` seen-set
(src/app.js 241-249): the first occurrence of each name is kept. -/
def dedupModels (seen : List Str) : List Model → List Model
  | [] => []
  | m :: t =>
    if m.name ∈ seen then dedupModels seen t
    else m :: dedupModels (m.name :: seen) t

/-- The per-provider body of the association loop (src/app.js 213-253):
substring scan for providers without explicit models, capability lookup,
duplicate removal, sort. -/
def buildProviderB (blocks : List (Str × Details)) (p : ProviderA) : ProviderB :=
  let hasExplicitModels := !p.models.isEmpty
  let modelNames :=
    if hasExplicitModels then p.models
    else
      blocks.foldl (fun acc kv =>
        if jsIncludes (toLowerL kv.1) (toLowerL p.name) ||
            (match lookupObj extraModels p.name with
             | some l => l.contains kv.1
             | none => false) then
          acc ++ [kv.1]
        else acc) p.models
  let models := modelNames.map (fun modelName =>
    { name := modelName
      capabilities := (findModelDetails modelName blocks).getD {} })
  let models := dedupModels [] models
  let models := sortModels models
  { name := p.name, models := models, description := p.description }

/-- `providers[...].models.some(m => m.name === modelName)` over all
providers (src/app.js 260-265). -/
def modelAssigned (provs : List (Str × ProviderB)) (modelName : Str) : Bool :=
  provs.any (fun kp => kp.2.models.any (fun m => m.name = modelName))

/-- Update of one provider in place. -/
def objUpdate (k : Str) (f : α → α) : List (Str × α) → List (Str × α)
  | [] => []
  | (k', v) :: t => if k' = k then (k', f v) :: t else (k', v) :: objUpdate k f t

/-- One iteration of the unassigned-model loop (src/app.js 257-287) for
the capability entry `kv`, on the running state (providers, other-bucket). -/
def distribStep (st : List (Str × ProviderB) × List Model)
    (kv : Str × Details) : List (Str × ProviderB) × List Model :=
  if modelAssigned st.1 kv.1 then st
  else
    match getProviderFromModelName kv.1 with
    | some providerHint =>
      if hasKey st.1 providerHint then
        (objUpdate providerHint
          (fun p => { p with
            unlistedModels := p.unlistedModels ++ [⟨kv.1, kv.2⟩] }) st.1,
         st.2)
      else (st.1, st.2 ++ [⟨kv.1, kv.2⟩])
    | none => (st.1, st.2 ++ [⟨kv.1, kv.2⟩])

/-- The unassigned-model loop (src/app.js 255-287): every capability entry
claimed by no provider is pushed onto the hinted provider's
`unlistedModels` when the hint names a declared provider, and onto the
`other` bucket otherwise. -/
def distributeUnassigned (blocks : List (Str × Details))
    (provs : List (Str × ProviderB)) :
    List (Str × ProviderB) × List Model :=
  blocks.foldl distribStep (provs, [])

/-- The description of the synthetic `other` provider (src/app.js 294). -/
def otherDescription : Str :=
  "Models that are not explicitly associated with a specific provider.".data

/-- The merge of `unlistedModels` into `models` with the field deleted
(src/app.js 298-307). -/
def mergeUnlisted (p : ProviderB) : ProviderB :=
  { p with models := p.models ++ p.unlistedModels, unlistedModels := [] }

/-- The empty-provider placeholder (src/app.js 309-317). -/
def placeholderFix (providerName : Str) (p : ProviderB) : ProviderB :=
  if p.models.isEmpty then
    { p with models :=
        [{ name := "No models listed for ".data ++ providerName
           capabilities := {} }] }
  else p

/-- The final result shape `{ providers }`. -/
structure ParseResult where
  providers : List (Str × ProviderB)
deriving DecidableEq, Repr

/-- Stage 1-2: providers with their explicit model lists. -/
def stageProviders (c : Str) : List (Str × ProviderA) :=
  applyDefaultModels c (extractProviders c)

/-- Stage 3-4: the association loop applied to every provider. -/
def stageAssoc (c : Str) : List (Str × ProviderB) :=
  (stageProviders c).map (fun kp =>
    (kp.1, buildProviderB (buildModelInfoBlocks c) kp.2))

/-- Stage 5: the unassigned-model distribution. -/
def stageDistrib (c : Str) : List (Str × ProviderB) × List Model :=
  distributeUnassigned (buildModelInfoBlocks c) (stageAssoc c)

/-- Stage 6: the synthetic `other` provider (src/app.js 289-296), inserted
only when unassigned models exist. -/
def stageOther (c : Str) : List (Str × ProviderB) :=
  let (ps, other) := stageDistrib c
  if other.isEmpty then ps
  else
    objInsert "other".data
      ⟨"other".data, other, otherDescription, []⟩ ps

/-- Stage 7: merge of the unlisted models. -/
def stageMerge (c : Str) : List (Str × ProviderB) :=
  (stageOther c).map (fun kp => (kp.1, mergeUnlisted kp.2))

/-- The try-block body of `parseModelData` (src/app.js 132-319).  Every
operation of the body is total on strings, so the embedding is a total
function. -/
def parseModelDataBody (c : Str) : ParseResult :=
  ⟨(stageMerge c).map (fun kp => (kp.1, placeholderFix kp.1 kp.2))⟩

/-- The try block viewed at the pipeline boundary: a fault would surface
here as `Except.error`; the body being total, it never does. -/
def parseModelDataTry (c : Str) : Except Str ParseResult :=
  Except.ok (parseModelDataBody c)

/-- Embedding of `parseModelData` (src/app.js 129-324), with the catch arm
of src/app.js 320-323 turning any fault into `{ providers: {} }`. -/
def parseModelData (fileContent : String) : ParseResult :=
  match parseModelDataTry fileContent.data with
  | Except.ok r => r
  | Except.error _ => ⟨[]⟩

/-! ## Notions used by the stated properties -/

/-- The names of a model list. -/
def namesOf (ms : List Model) : List Str := ms.map Model.name

/-- The first model of a list carrying a given name. -/
def firstWithName (ms : List Model) (n : Str) : Option Model :=
  ms.find? (fun m => m.name = n)

theorem namesOf_nil : namesOf [] = [] := rfl

theorem namesOf_cons (m : Model) (ms : List Model) :
    namesOf (m :: ms) = m.name :: namesOf ms := rfl

theorem namesOf_append (ms ns : List Model) :
    namesOf (ms ++ ns) = namesOf ms ++ namesOf ns := List.map_append _ _ _

/-! ## Order lemmas for the embedded comparator -/

theorem lexLt_asymm : ∀ a b : Str, lexLt a b = true → lexLt b a = false := by
  intro a
  induction a with
  | nil =>
    intro b _
    cases b with
    | nil => rfl
    | cons d u => rfl
  | cons c t ih =>
    intro b h
    cases b with
    | nil => simp [lexLt] at h
    | cons d u =>
      simp only [lexLt] at h ⊢
      by_cases h1 : c < d
      · have h2 : ¬ d < c := lt_asymm h1
        simp [h1, h2]
      · by_cases h2 : d < c
        · simp [h1, h2] at h
        · have hcd : c = d := le_antisymm (not_lt.mp h2) (not_lt.mp h1)
          subst hcd
          simp only [lt_self_iff_false, if_false] at h ⊢
          exact ih u h

theorem lexLt_connex : ∀ a b : Str, lexLt a b = false → lexLt b a = false → a = b := by
  intro a
  induction a with
  | nil =>
    intro b h1 _
    cases b with
    | nil => rfl
    | cons d u => simp [lexLt] at h1
  | cons c t ih =>
    intro b h1 h2
    cases b with
    | nil => simp [lexLt] at h2
    | cons d u =>
      simp only [lexLt] at h1 h2
      by_cases hcd : c < d
      · simp [hcd] at h1
      · by_cases hdc : d < c
        · simp [hdc] at h2
        · have hc : c = d := le_antisymm (not_lt.mp hdc) (not_lt.mp hcd)
          subst hc
          simp only [lt_self_iff_false, if_false] at h1 h2
          rw [ih u h1 h2]

theorem lexLt_trans : ∀ a b c : Str,
    lexLt a b = true → lexLt b c = true → lexLt a c = true := by
  intro a
  induction a with
  | nil =>
    intro b c h1 h2
    cases c with
    | nil => cases b <;> simp [lexLt] at h2
    | cons e v => rfl
  | cons x t ih =>
    intro b c h1 h2
    cases b with
    | nil => simp [lexLt] at h1
    | cons y u =>
      cases c with
      | nil => simp [lexLt] at h2
      | cons z v =>
        simp only [lexLt] at h1 h2 ⊢
        by_cases hxy : x < y
        · by_cases hyz : y < z
          · simp [lt_trans hxy hyz]
          · by_cases hzy : z < y
            · simp [hyz, hzy] at h2
            · have hy : y = z := le_antisymm (not_lt.mp hzy) (not_lt.mp hyz)
              subst hy
              simp [hxy]
        · by_cases hyx : y < x
          · simp [hxy, hyx] at h1
          · have hx : x = y := le_antisymm (not_lt.mp hyx) (not_lt.mp hxy)
            subst hx
            simp only [lt_self_iff_false, if_false] at h1
            by_cases hxz : x < z
            · simp [hxz]
            · by_cases hzx : z < x
              · simp [hxz, hzx] at h2
              · have hz : x = z := le_antisymm (not_lt.mp hzx) (not_lt.mp hxz)
                subst hz
                simp only [lt_self_iff_false, if_false] at h2 ⊢
                exact ih u v h1 h2

instance : IsTotal Model leNameR :=
  ⟨by
    intro a b
    unfold leNameR leName
    by_cases h : lexLt b.name a.name = true
    · right
      rw [lexLt_asymm _ _ h]
      rfl
    · left
      rw [Bool.not_eq_true] at h
      rw [h]
      rfl⟩

instance : IsTrans Model leNameR :=
  ⟨by
    intro a b c hab hbc
    unfold leNameR leName at hab hbc ⊢
    rw [Bool.not_eq_true'] at hab hbc ⊢
    by_cases h : lexLt c.name a.name = true
    · exfalso
      by_cases h2 : lexLt a.name b.name = true
      · have h3 := lexLt_trans _ _ _ h h2
        rw [hbc] at h3
        exact Bool.false_ne_true h3
      · rw [Bool.not_eq_true] at h2
        have hEq := lexLt_connex _ _ h2 hab
        rw [hEq] at h
        rw [hbc] at h
        exact Bool.false_ne_true h
    · rw [Bool.not_eq_true] at h
      exact h⟩

/-! ## Lemmas about the duplicate-removal filter -/

theorem dedupModels_mem : ∀ (seen : List Str) (ms : List Model) (m' : Model),
    m' ∈ dedupModels seen ms →
    m'.name ∉ seen ∧ firstWithName ms m'.name = some m' := by
  intro seen ms
  induction ms generalizing seen with
  | nil => intro m' h; simp [dedupModels] at h
  | cons m t ih =>
    intro m' h
    by_cases hm : m.name ∈ seen
    · rw [dedupModels, if_pos hm] at h
      obtain ⟨h1, h2⟩ := ih seen m' h
      have hne : ¬ m.name = m'.name := fun he => h1 (he ▸ hm)
      refine ⟨h1, ?_⟩
      rw [firstWithName] at h2 ⊢
      rw [List.find?_cons_of_neg _ (by simpa using hne)]
      exact h2
    · rw [dedupModels, if_neg hm] at h
      rcases List.mem_cons.mp h with rfl | h'
      · refine ⟨hm, ?_⟩
        rw [firstWithName, List.find?_cons_of_pos _ (by simp)]
      · obtain ⟨h1, h2⟩ := ih (m.name :: seen) m' h'
        have hne : ¬ m.name = m'.name := by
          intro he
          exact h1 (by simp [he])
        constructor
        · intro hs
          exact h1 (by simp [hs])
        · rw [firstWithName] at h2 ⊢
          rw [List.find?_cons_of_neg _ (by simpa using hne)]
          exact h2

theorem dedupModels_nodup : ∀ (seen : List Str) (ms : List Model),
    (namesOf (dedupModels seen ms)).Nodup := by
  intro seen ms
  induction ms generalizing seen with
  | nil => simp [dedupModels, namesOf]
  | cons m t ih =>
    by_cases hm : m.name ∈ seen
    · rw [dedupModels, if_pos hm]
      exact ih seen
    · rw [dedupModels, if_neg hm, namesOf_cons]
      refine List.nodup_cons.mpr ⟨?_, ih (m.name :: seen)⟩
      intro hmem
      obtain ⟨m'', hm'', he⟩ := List.mem_map.mp hmem
      obtain ⟨h1, _⟩ := dedupModels_mem _ _ _ hm''
      exact h1 (by simp [he])

/-- Sorting preserves duplicate-freedom of the names. -/
theorem sortModels_names_nodup (ms : List Model) (h : (namesOf ms).Nodup) :
    (namesOf (sortModels ms)).Nodup := by
  have hperm := List.perm_insertionSort leNameR ms
  exact ((hperm.map Model.name).nodup_iff).mpr h

/-- The model list produced by the association loop for one provider is
duplicate-free. -/
theorem buildProviderB_models_nodup (blocks : List (Str × Details))
    (p : ProviderA) :
    (namesOf (buildProviderB blocks p).models).Nodup :=
  sortModels_names_nodup _ (dedupModels_nodup _ _)

/-- The model list produced by the association loop is sorted under the
embedded comparator. -/
theorem buildProviderB_models_sorted (blocks : List (Str × Details))
    (p : ProviderA) :
    List.Sorted leNameR (buildProviderB blocks p).models :=
  List.sorted_insertionSort leNameR _

/-! ## Object-map lemmas -/

theorem mem_objInsert {α : Type} (k : Str) (v : α) :
    ∀ (l : List (Str × α)) (p : Str × α),
      p ∈ objInsert k v l → p = (k, v) ∨ p ∈ l := by
  intro l
  induction l with
  | nil =>
    intro p h
    rw [objInsert] at h
    exact Or.inl (List.mem_singleton.mp h)
  | cons q t ih =>
    intro p h
    obtain ⟨k', v'⟩ := q
    rw [objInsert] at h
    by_cases he : k = k'
    · rw [if_pos he] at h
      rcases List.mem_cons.mp h with rfl | h'
      · exact Or.inl (by rw [he])
      · exact Or.inr (List.mem_cons_of_mem _ h')
    · rw [if_neg he] at h
      rcases List.mem_cons.mp h with rfl | h'
      · exact Or.inr (List.mem_cons_self _ _)
      · rcases ih p h' with h'' | h''
        · exact Or.inl h''
        · exact Or.inr (List.mem_cons_of_mem _ h'')

theorem lookupObj_objInsert_self {α : Type} (k : Str) (v : α)
    (l : List (Str × α)) : lookupObj (objInsert k v l) k = some v := by
  induction l with
  | nil => simp [objInsert, lookupObj]
  | cons q t ih =>
    obtain ⟨k', v'⟩ := q
    rw [objInsert]
    by_cases he : k = k'
    · rw [if_pos he, lookupObj, if_pos he.symm]
    · rw [if_neg he, lookupObj, if_neg (fun h => he h.symm)]
      exact ih

theorem hasKey_objInsert_self {α : Type} (k : Str) (v : α)
    (l : List (Str × α)) : hasKey (objInsert k v l) k = true := by
  rw [hasKey, lookupObj_objInsert_self]
  rfl

theorem hasKey_of_mem {α : Type} :
    ∀ (l : List (Str × α)) (p : Str × α), p ∈ l → hasKey l p.1 = true := by
  intro l
  induction l with
  | nil => intro p h; simp at h
  | cons q t ih =>
    intro p h
    obtain ⟨k', v'⟩ := q
    rcases List.mem_cons.mp h with rfl | h'
    · simp [hasKey, lookupObj]
    · rw [hasKey, lookupObj]
      by_cases he : k' = p.1
      · simp [he]
      · rw [if_neg he]
        exact ih p h'

theorem mem_objUpdate {α : Type} (k : Str) (f : α → α) :
    ∀ (l : List (Str × α)) (p : Str × α), p ∈ objUpdate k f l →
      p ∈ l ∨ ∃ v, (k, v) ∈ l ∧ p = (k, f v) := by
  intro l
  induction l with
  | nil => intro p h; rw [objUpdate] at h; exact Or.inl h
  | cons q t ih =>
    intro p h
    obtain ⟨k', v'⟩ := q
    rw [objUpdate] at h
    by_cases he : k' = k
    · rw [if_pos he] at h
      rcases List.mem_cons.mp h with rfl | h'
      · subst he
        exact Or.inr ⟨v', List.mem_cons_self _ _, rfl⟩
      · exact Or.inl (List.mem_cons_of_mem _ h')
    · rw [if_neg he] at h
      rcases List.mem_cons.mp h with rfl | h'
      · exact Or.inl (List.mem_cons_self _ _)
      · rcases ih p h' with h'' | ⟨v, hv, he'⟩
        · exact Or.inl (List.mem_cons_of_mem _ h'')
        · exact Or.inr ⟨v, List.mem_cons_of_mem _ hv, he'⟩

/-! ## The (key, models) projection preserved by the unassigned loop -/

/-- The projection of a provider entry that the unassigned-model loop never
changes. -/
def projKM (kp : Str × ProviderB) : Str × List Model := (kp.1, kp.2.models)

/-- `modelAssigned` expressed on the projection. -/
def assignedIn (pm : List (Str × List Model)) (n : Str) : Bool :=
  pm.any (fun km => km.2.any (fun m => m.name = n))

/-- `hasKey` expressed on the projection. -/
def keyIn (pm : List (Str × List Model)) (k : Str) : Bool :=
  pm.any (fun km => km.1 = k)

theorem modelAssigned_eq_proj (ps : List (Str × ProviderB)) (n : Str) :
    modelAssigned ps n = assignedIn (ps.map projKM) n := by
  induction ps with
  | nil => rfl
  | cons q t ih =>
    simp only [modelAssigned, assignedIn, List.map_cons, List.any_cons] at ih ⊢
    rw [ih]
    rfl

theorem hasKey_eq_proj (ps : List (Str × ProviderB)) (k : Str) :
    hasKey ps k = keyIn (ps.map projKM) k := by
  induction ps with
  | nil => rfl
  | cons q t ih =>
    obtain ⟨k', v⟩ := q
    simp only [keyIn, List.map_cons, List.any_cons, projKM]
    rw [hasKey, lookupObj]
    by_cases he : k' = k
    · simp [he]
    · rw [if_neg he]
      rw [hasKey] at ih
      rw [ih]
      simp [he, keyIn]

theorem assignedIn_false_not_mem {pm : List (Str × List Model)} {n : Str}
    (h : assignedIn pm n = false) :
    ∀ km ∈ pm, ∀ m ∈ km.2, m.name ≠ n := by
  intro km hkm m hm
  rw [assignedIn, List.any_eq_false] at h
  have h2 := h km hkm
  rw [Bool.not_eq_true, List.any_eq_false] at h2
  have h3 := h2 m hm
  simpa using h3

theorem map_projKM_objUpdate (k : Str) (g : ProviderB → List Model) :
    ∀ l : List (Str × ProviderB),
      (objUpdate k (fun p => { p with unlistedModels := g p }) l).map projKM
        = l.map projKM := by
  intro l
  induction l with
  | nil => rfl
  | cons q t ih =>
    obtain ⟨k', v⟩ := q
    rw [objUpdate]
    by_cases he : k' = k
    · rw [if_pos he, List.map_cons, List.map_cons]
      rfl
    · rw [if_neg he, List.map_cons, List.map_cons, ih]

theorem distribStep_proj (st : List (Str × ProviderB) × List Model)
    (kv : Str × Details) :
    (distribStep st kv).1.map projKM = st.1.map projKM := by
  rw [distribStep]
  by_cases ha : modelAssigned st.1 kv.1 = true
  · simp [ha]
  · simp only [Bool.not_eq_true] at ha
    rcases hh : getProviderFromModelName kv.1 with _ | ph
    · simp [ha, hh]
    · by_cases hk : hasKey st.1 ph = true
      · simp [ha, hh, hk, map_projKM_objUpdate]
      · simp only [Bool.not_eq_true] at hk
        simp [ha, hh, hk]

/-! ## Characterization of the unassigned-model loop -/

/-- Facts recorded for every model pushed into the `other` bucket: it is a
capability entry, claimed by no provider, with no hint or a hint naming an
undeclared provider. -/
def otherFact (pm : List (Str × List Model)) (bsKeys : List Str)
    (m : Model) : Prop :=
  m.name ∈ bsKeys ∧ assignedIn pm m.name = false ∧
    ∀ h, getProviderFromModelName m.name = some h → keyIn pm h = false

/-- Facts recorded for every model pushed onto provider `k`'s
`unlistedModels`: a capability entry, claimed by no provider, hinted to
`k`. -/
def unlFact (pm : List (Str × List Model)) (bsKeys : List Str) (k : Str)
    (m : Model) : Prop :=
  m.name ∈ bsKeys ∧ assignedIn pm m.name = false ∧
    getProviderFromModelName m.name = some k

theorem otherFact_mono {pm : List (Str × List Model)} {ks ks' : List Str}
    {m : Model} (hsub : ks ⊆ ks') (h : otherFact pm ks m) :
    otherFact pm ks' m :=
  ⟨hsub h.1, h.2.1, h.2.2⟩

theorem unlFact_mono {pm : List (Str × List Model)} {ks ks' : List Str}
    {k : Str} {m : Model} (hsub : ks ⊆ ks') (h : unlFact pm ks k m) :
    unlFact pm ks' k m :=
  ⟨hsub h.1, h.2.1, h.2.2⟩

/-- Full characterization of the unassigned-model fold: the (key, models)
projection is preserved, the `other` bucket only grows by entries
satisfying `otherFact`, and every provider keeps its models, description
and name while its `unlistedModels` grows only by entries satisfying
`unlFact`. -/
theorem distribFold_spec :
    ∀ (bs : List (Str × Details)) (st : List (Str × ProviderB) × List Model)
      (pm : List (Str × List Model)), st.1.map projKM = pm →
      ((bs.foldl distribStep st).1.map projKM = pm) ∧
      (∃ added, (bs.foldl distribStep st).2 = st.2 ++ added ∧
        ∀ m ∈ added, otherFact pm (keysOf bs) m) ∧
      (∀ kp' ∈ (bs.foldl distribStep st).1, ∃ kp, kp ∈ st.1 ∧ kp'.1 = kp.1 ∧
        kp'.2.models = kp.2.models ∧ kp'.2.description = kp.2.description ∧
        kp'.2.name = kp.2.name ∧
        ∃ added, kp'.2.unlistedModels = kp.2.unlistedModels ++ added ∧
          ∀ m ∈ added, unlFact pm (keysOf bs) kp'.1 m) := by
  intro bs
  induction bs with
  | nil =>
    intro st pm hpm
    refine ⟨hpm, ⟨[], by simp, by simp⟩, ?_⟩
    intro kp' h
    exact ⟨kp', h, rfl, rfl, rfl, rfl, [], by simp, by simp⟩
  | cons kv rest ih =>
    intro st pm hpm
    have hstep : (distribStep st kv).1.map projKM = pm := by
      rw [distribStep_proj, hpm]
    obtain ⟨hproj, ⟨addedO, hO, hOf⟩, hU⟩ := ih (distribStep st kv) pm hstep
    rw [List.foldl_cons]
    have hsub : keysOf rest ⊆ keysOf (kv :: rest) := by
      intro x hx
      exact List.mem_cons_of_mem _ hx
    have hheadKey : kv.1 ∈ keysOf (kv :: rest) := List.mem_cons_self _ _
    by_cases ha : modelAssigned st.1 kv.1 = true
    · -- entry already assigned: state unchanged
      have hst' : distribStep st kv = st := by
        rw [distribStep]
        simp [ha]
      rw [hst'] at hproj hO hU ⊢
      refine ⟨hproj, ⟨addedO, hO, fun m hm => otherFact_mono hsub (hOf m hm)⟩, ?_⟩
      intro kp' h
      obtain ⟨kp, hkp, h1, h2, h3, h4, added, ha', hf⟩ := hU kp' h
      exact ⟨kp, hkp, h1, h2, h3, h4, added, ha',
        fun m hm => unlFact_mono hsub (hf m hm)⟩
    · simp only [Bool.not_eq_true] at ha
      have haIn : assignedIn pm kv.1 = false := by
        rw [← hpm, ← modelAssigned_eq_proj]
        exact ha
      rcases hh : getProviderFromModelName kv.1 with _ | ph
      · -- no hint: pushed to the other bucket
        have hst' : distribStep st kv = (st.1, st.2 ++ [⟨kv.1, kv.2⟩]) := by
          rw [distribStep]
          simp [ha, hh]
        rw [hst'] at hproj hO hU ⊢
        refine ⟨hproj, ⟨⟨kv.1, kv.2⟩ :: addedO, ?_, ?_⟩, ?_⟩
        · rw [hO, List.append_assoc]
          rfl
        · intro m hm
          rcases List.mem_cons.mp hm with rfl | hm'
          · exact ⟨hheadKey, haIn, fun h hsome => by rw [hh] at hsome; cases hsome⟩
          · exact otherFact_mono hsub (hOf m hm')
        · intro kp' h
          obtain ⟨kp, hkp, h1, h2, h3, h4, added, ha', hf⟩ := hU kp' h
          exact ⟨kp, hkp, h1, h2, h3, h4, added, ha',
            fun m hm => unlFact_mono hsub (hf m hm)⟩
      · by_cases hk : hasKey st.1 ph = true
        · -- hinted provider declared: pushed onto its unlistedModels
          have hst' : distribStep st kv =
              (objUpdate ph (fun p => { p with
                unlistedModels := p.unlistedModels ++ [⟨kv.1, kv.2⟩] }) st.1,
               st.2) := by
            rw [distribStep]
            simp [ha, hh, hk]
          rw [hst'] at hproj hO hU ⊢
          refine ⟨hproj, ⟨addedO, hO,
            fun m hm => otherFact_mono hsub (hOf m hm)⟩, ?_⟩
          intro kp' h
          obtain ⟨kp'', hkp'', h1, h2, h3, h4, added, ha', hf⟩ := hU kp' h
          rcases mem_objUpdate _ _ _ _ hkp'' with hmem | ⟨v, hv, he⟩
          · exact ⟨kp'', hmem, h1, h2, h3, h4, added, ha',
              fun m hm => unlFact_mono hsub (hf m hm)⟩
          · subst he
            refine ⟨(ph, v), hv, h1, h2, h3, h4,
              ⟨kv.1, kv.2⟩ :: added, ?_, ?_⟩
            · rw [ha']
              simp
            · intro m hm
              rcases List.mem_cons.mp hm with rfl | hm'
              · refine ⟨hheadKey, haIn, ?_⟩
                rw [h1]
                exact hh
              · exact unlFact_mono hsub (hf m hm')
        · -- hinted provider not declared: pushed to the other bucket
          simp only [Bool.not_eq_true] at hk
          have hkIn : keyIn pm ph = false := by
            rw [← hpm, ← hasKey_eq_proj]
            exact hk
          have hst' : distribStep st kv = (st.1, st.2 ++ [⟨kv.1, kv.2⟩]) := by
            rw [distribStep]
            simp [ha, hh, hk]
          rw [hst'] at hproj hO hU ⊢
          refine ⟨hproj, ⟨⟨kv.1, kv.2⟩ :: addedO, ?_, ?_⟩, ?_⟩
          · rw [hO, List.append_assoc]
            rfl
          · intro m hm
            rcases List.mem_cons.mp hm with rfl | hm'
            · refine ⟨hheadKey, haIn, fun h hsome => ?_⟩
              rw [hh] at hsome
              cases hsome
              exact hkIn
            · exact otherFact_mono hsub (hOf m hm')
          · intro kp' h
            obtain ⟨kp, hkp, h1, h2, h3, h4, added, ha', hf⟩ := hU kp' h
            exact ⟨kp, hkp, h1, h2, h3, h4, added, ha',
              fun m hm => unlFact_mono hsub (hf m hm)⟩

/-- The unassigned-model fold keeps every `unlistedModels` list and the
`other` bucket duplicate-free, provided the processed capability entries
have duplicate-free keys that are fresh for the current state. -/
theorem distribFold_nodup :
    ∀ (bs : List (Str × Details)) (st : List (Str × ProviderB) × List Model),
      (keysOf bs).Nodup →
      (∀ kp ∈ st.1, (namesOf kp.2.unlistedModels).Nodup ∧
        ∀ n ∈ namesOf kp.2.unlistedModels, n ∉ keysOf bs) →
      ((namesOf st.2).Nodup ∧ ∀ n ∈ namesOf st.2, n ∉ keysOf bs) →
      (∀ kp ∈ (bs.foldl distribStep st).1,
        (namesOf kp.2.unlistedModels).Nodup) ∧
      (namesOf (bs.foldl distribStep st).2).Nodup := by
  intro bs
  induction bs with
  | nil =>
    intro st _ hU hO
    exact ⟨fun kp h => (hU kp h).1, hO.1⟩
  | cons kv rest ih =>
    intro st hnd hU hO
    rw [List.foldl_cons]
    have hndr : (keysOf rest).Nodup := (List.nodup_cons.mp hnd).2
    have hknotr : kv.1 ∉ keysOf rest := (List.nodup_cons.mp hnd).1
    by_cases ha : modelAssigned st.1 kv.1 = true
    · have hst' : distribStep st kv = st := by
        rw [distribStep]
        simp [ha]
      rw [hst']
      refine ih st hndr ?_ ?_
      · intro kp h
        exact ⟨(hU kp h).1,
          fun n hn hmem => (hU kp h).2 n hn (List.mem_cons_of_mem _ hmem)⟩
      · exact ⟨hO.1,
          fun n hn hmem => hO.2 n hn (List.mem_cons_of_mem _ hmem)⟩
    · simp only [Bool.not_eq_true] at ha
      rcases hh : getProviderFromModelName kv.1 with _ | ph
      · -- pushed to other
        have hst' : distribStep st kv = (st.1, st.2 ++ [⟨kv.1, kv.2⟩]) := by
          rw [distribStep]
          simp [ha, hh]
        rw [hst']
        refine ih _ hndr ?_ ?_
        · intro kp h
          exact ⟨(hU kp h).1,
            fun n hn hmem => (hU kp h).2 n hn (List.mem_cons_of_mem _ hmem)⟩
        · constructor
          · rw [namesOf_append]
            refine List.nodup_append.mpr ⟨hO.1, List.nodup_singleton _, ?_⟩
            intro x hx hx'
            rw [namesOf] at hx'
            simp at hx'
            exact hO.2 x hx (by rw [hx']; exact List.mem_cons_self _ _)
          · intro n hn
            rw [namesOf_append] at hn
            rcases List.mem_append.mp hn with hn' | hn'
            · exact fun hmem => hO.2 n hn' (List.mem_cons_of_mem _ hmem)
            · rw [namesOf] at hn'
              simp at hn'
              rw [hn']
              exact hknotr
      · by_cases hk : hasKey st.1 ph = true
        · -- pushed onto a provider's unlistedModels
          have hst' : distribStep st kv =
              (objUpdate ph (fun p => { p with
                unlistedModels := p.unlistedModels ++ [⟨kv.1, kv.2⟩] }) st.1,
               st.2) := by
            rw [distribStep]
            simp [ha, hh, hk]
          rw [hst']
          refine ih _ hndr ?_ ?_
          · intro kp h
            rcases mem_objUpdate _ _ _ _ h with hmem | ⟨v, hv, he⟩
            · exact ⟨(hU kp hmem).1,
                fun n hn hmem' => (hU kp hmem).2 n hn (List.mem_cons_of_mem _ hmem')⟩
            · subst he
              have hUv := hU (ph, v) hv
              constructor
              · simp only [namesOf_append]
                refine List.nodup_append.mpr ⟨hUv.1, List.nodup_singleton _, ?_⟩
                intro x hx hx'
                rw [namesOf] at hx'
                simp at hx'
                exact hUv.2 x hx (by rw [hx']; exact List.mem_cons_self _ _)
              · intro n hn
                simp only [namesOf_append] at hn
                rcases List.mem_append.mp hn with hn' | hn'
                · exact fun hmem => hUv.2 n hn' (List.mem_cons_of_mem _ hmem)
                · rw [namesOf] at hn'
                  simp at hn'
                  rw [hn']
                  exact hknotr
          · exact ⟨hO.1,
              fun n hn hmem => hO.2 n hn (List.mem_cons_of_mem _ hmem)⟩
        · simp only [Bool.not_eq_true] at hk
          have hst' : distribStep st kv = (st.1, st.2 ++ [⟨kv.1, kv.2⟩]) := by
            rw [distribStep]
            simp [ha, hh, hk]
          rw [hst']
          refine ih _ hndr ?_ ?_
          · intro kp h
            exact ⟨(hU kp h).1,
              fun n hn hmem => (hU kp h).2 n hn (List.mem_cons_of_mem _ hmem)⟩
          · constructor
            · rw [namesOf_append]
              refine List.nodup_append.mpr ⟨hO.1, List.nodup_singleton _, ?_⟩
              intro x hx hx'
              rw [namesOf] at hx'
              simp at hx'
              exact hO.2 x hx (by rw [hx']; exact List.mem_cons_self _ _)
            · intro n hn
              rw [namesOf_append] at hn
              rcases List.mem_append.mp hn with hn' | hn'
              · exact fun hmem => hO.2 n hn' (List.mem_cons_of_mem _ hmem)
              · rw [namesOf] at hn'
                simp at hn'
                rw [hn']
                exact hknotr

/-- If some capability entry is claimed by no provider and its keyword
hint is missing or undeclared, the fold ends with a non-empty `other`
bucket. -/
theorem distribFold_other_ne :
    ∀ (bs : List (Str × Details)) (st : List (Str × ProviderB) × List Model)
      (pm : List (Str × List Model)), st.1.map projKM = pm →
      (∃ kv ∈ bs, assignedIn pm kv.1 = false ∧
        ∀ h, getProviderFromModelName kv.1 = some h → keyIn pm h = false) →
      (bs.foldl distribStep st).2 ≠ [] := by
  intro bs
  induction bs with
  | nil =>
    rintro st pm _ ⟨kv, hkv, -⟩
    simp at hkv
  | cons kv0 rest ih =>
    rintro st pm hpm ⟨kv, hkv, hun, hhint⟩
    rw [List.foldl_cons]
    have hstep : (distribStep st kv0).1.map projKM = pm := by
      rw [distribStep_proj, hpm]
    rcases List.mem_cons.mp hkv with rfl | hkv'
    · have ha : modelAssigned st.1 kv.1 = false := by
        rw [modelAssigned_eq_proj, hpm]
        exact hun
      have hpush : (distribStep st kv).2 = st.2 ++ [⟨kv.1, kv.2⟩] := by
        rcases hh : getProviderFromModelName kv.1 with _ | ph
        · rw [distribStep]
          simp [ha, hh]
        · have hk : hasKey st.1 ph = false := by
            rw [hasKey_eq_proj, hpm]
            exact hhint ph hh
          rw [distribStep]
          simp [ha, hh, hk]
      obtain ⟨-, ⟨added, hO, -⟩, -⟩ :=
        distribFold_spec rest (distribStep st kv) pm hstep
      rw [hO, hpush]
      simp
    · exact ih (distribStep st kv0) pm hstep ⟨kv, hkv', hun, hhint⟩

/-! ## Key lemmas for the object maps built by the pipeline -/

theorem mem_keysOf_objInsert {α : Type} {k x : Str} {v : α}
    {l : List (Str × α)} (h : x ∈ keysOf (objInsert k v l)) :
    x ∈ keysOf l ∨ x = k := by
  rw [keysOf] at h
  obtain ⟨p, hp, he⟩ := List.mem_map.mp h
  rcases mem_objInsert _ _ _ _ hp with he' | hp'
  · right
    rw [← he, he']
  · left
    exact List.mem_map.mpr ⟨p, hp', he⟩

theorem keysOf_objInsert_nodup {α : Type} (k : Str) (v : α) :
    ∀ l : List (Str × α), (keysOf l).Nodup →
      (keysOf (objInsert k v l)).Nodup := by
  intro l
  induction l with
  | nil =>
    intro _
    simp [objInsert, keysOf]
  | cons q t ih =>
    intro h
    obtain ⟨k', v'⟩ := q
    rw [objInsert]
    by_cases he : k = k'
    · rw [if_pos he]
      exact h
    · rw [if_neg he]
      have h' := List.nodup_cons.mp h
      refine List.nodup_cons.mpr ⟨?_, ih h'.2⟩
      intro hmem
      rcases mem_keysOf_objInsert hmem with hmem' | hmem'
      · exact h'.1 hmem'
      · exact he hmem'.symm

theorem exists_mem_of_mem_keysOf {α : Type} {l : List (Str × α)} {x : Str}
    (h : x ∈ keysOf l) : ∃ v, (x, v) ∈ l := by
  rw [keysOf] at h
  obtain ⟨p, hp, he⟩ := List.mem_map.mp h
  refine ⟨p.2, ?_⟩
  rw [← he, Prod.mk.eta]
  exact hp

theorem hasKey_mapVal {α β : Type} (f : Str × α → β) (l : List (Str × α))
    (k : Str) :
    hasKey (l.map (fun kp => (kp.1, f kp))) k = hasKey l k := by
  induction l with
  | nil => rfl
  | cons q t ih =>
    obtain ⟨k', v⟩ := q
    rw [List.map_cons, hasKey, lookupObj, hasKey, lookupObj]
    by_cases he : k' = k
    · simp [he]
    · rw [if_neg he, if_neg he]
      exact ih

/-- The per-section fold of `extractModelsFromBlock` keeps keys
duplicate-free. -/
theorem foldl_sections_keys_nodup (secs : List (Str × Str)) :
    ∀ bs : List (Str × Details), (keysOf bs).Nodup →
      (keysOf (secs.foldl (fun bs sec =>
        if sec.1.isEmpty then bs
        else objInsert sec.1 (parseModelDetails sec.2) bs) bs)).Nodup := by
  induction secs with
  | nil => intro bs h; exact h
  | cons sec rest ih =>
    intro bs h
    rw [List.foldl_cons]
    by_cases he : sec.1.isEmpty = true
    · simp only [he, if_true]
      exact ih bs h
    · simp only [he, if_false]
      exact ih _ (keysOf_objInsert_nodup _ _ _ h)

theorem extractModelsFromBlock_keys_nodup (c n : Str)
    (bs : List (Str × Details)) (h : (keysOf bs).Nodup) :
    (keysOf (extractModelsFromBlock c n bs)).Nodup := by
  cases hb : findBlockBody n c with
  | none => rw [extractModelsFromBlock, hb]; exact h
  | some body =>
    rw [extractModelsFromBlock, hb]
    exact foldl_sections_keys_nodup _ _ h

/-- The capability-entry map has duplicate-free keys. -/
theorem buildModelInfoBlocks_keys_nodup (c : Str) :
    (keysOf (buildModelInfoBlocks c)).Nodup := by
  have gen : ∀ (names : List Str) (bs : List (Str × Details)),
      (keysOf bs).Nodup →
      (keysOf (names.foldl
        (fun bs n => extractModelsFromBlock c n bs) bs)).Nodup := by
    intro names
    induction names with
    | nil => intro bs h; exact h
    | cons n rest ih =>
      intro bs h
      rw [List.foldl_cons]
      exact ih _ (extractModelsFromBlock_keys_nodup _ _ _ h)
  rw [buildModelInfoBlocks]
  exact gen _ _ (gen _ [] (by simp [keysOf]))

/-! ## Stage-level lemmas -/

/-- The final output of `parseModelData`, unfolded to its stages. -/
theorem parseModelData_providers (s : String) :
    (parseModelData s).providers =
      (stageMerge s.data).map (fun kp => (kp.1, placeholderFix kp.1 kp.2)) :=
  rfl

/-- Every provider produced by the association loop: no unlisted models
yet, duplicate-free and sorted models. -/
theorem stageAssoc_mem (c : Str) (kp : Str × ProviderB)
    (h : kp ∈ stageAssoc c) :
    kp.2.unlistedModels = [] ∧ (namesOf kp.2.models).Nodup ∧
      List.Sorted leNameR kp.2.models := by
  rw [stageAssoc] at h
  obtain ⟨kq, _, he⟩ := List.mem_map.mp h
  rw [← he]
  exact ⟨rfl, buildProviderB_models_nodup _ _, buildProviderB_models_sorted _ _⟩

/-- The facts needed of every entry after the `other`-provider stage. -/
theorem stageOther_mem (c : Str) (kp : Str × ProviderB)
    (h : kp ∈ stageOther c) :
    (namesOf kp.2.models).Nodup ∧
    (namesOf kp.2.unlistedModels).Nodup ∧
    (∀ m ∈ kp.2.unlistedModels, m.name ∉ namesOf kp.2.models) ∧
    (∀ m ∈ kp.2.unlistedModels, m.name ∈ keysOf (buildModelInfoBlocks c)) ∧
    (List.Sorted leNameR kp.2.models ∨
      (kp.2.unlistedModels = [] ∧
        ∀ m ∈ kp.2.models, m.name ∈ keysOf (buildModelInfoBlocks c))) := by
  have hproj0 : (stageAssoc c).map projKM = (stageAssoc c).map projKM := rfl
  obtain ⟨hproj, ⟨addedO, hO, hOf⟩, hU⟩ :=
    distribFold_spec (buildModelInfoBlocks c) (stageAssoc c, [])
      ((stageAssoc c).map projKM) hproj0
  obtain ⟨hUnodup, hOnodup⟩ :=
    distribFold_nodup (buildModelInfoBlocks c) (stageAssoc c, [])
      (buildModelInfoBlocks_keys_nodup c)
      (fun kq hq => by
        rw [(stageAssoc_mem c kq hq).1]
        exact ⟨List.nodup_nil, by simp [namesOf]⟩)
      ⟨List.nodup_nil, by simp [namesOf]⟩
  rw [List.nil_append] at hO
  -- the fold state reached by stageDistrib
  have hsd : stageDistrib c =
      (buildModelInfoBlocks c).foldl distribStep (stageAssoc c, []) := rfl
  -- a single treatment of entries coming from the fold result
  have hEntry : ∀ kq ∈ ((buildModelInfoBlocks c).foldl distribStep
      (stageAssoc c, [])).1,
      (namesOf kq.2.models).Nodup ∧
      (namesOf kq.2.unlistedModels).Nodup ∧
      (∀ m ∈ kq.2.unlistedModels, m.name ∉ namesOf kq.2.models) ∧
      (∀ m ∈ kq.2.unlistedModels,
        m.name ∈ keysOf (buildModelInfoBlocks c)) ∧
      List.Sorted leNameR kq.2.models := by
    intro kq hq
    obtain ⟨kp0, hkp0, h1, h2, h3, h4, added, ha', hf⟩ := hU kq hq
    obtain ⟨hu0, hnd0, hs0⟩ := stageAssoc_mem c kp0 hkp0
    rw [hu0, List.nil_append] at ha'
    refine ⟨by rw [h2]; exact hnd0, hUnodup kq hq, ?_, ?_, by rw [h2]; exact hs0⟩
    · intro m hm
      rw [ha'] at hm
      obtain ⟨-, hassign, -⟩ := hf m hm
      intro hmem
      obtain ⟨m', hm', he'⟩ := List.mem_map.mp hmem
      have hnot := assignedIn_false_not_mem hassign (projKM kp0)
        (List.mem_map.mpr ⟨kp0, hkp0, rfl⟩) m' (by rw [projKM, ← h2]; exact hm')
      exact hnot he'
    · intro m hm
      rw [ha'] at hm
      exact (hf m hm).1
  rw [stageOther] at h
  rw [hsd] at h
  by_cases hoe : (((buildModelInfoBlocks c).foldl distribStep
      (stageAssoc c, [])).2).isEmpty = true
  · simp only [hoe, if_true] at h
    obtain ⟨a1, a2, a3, a4, a5⟩ := hEntry kp h
    exact ⟨a1, a2, a3, a4, Or.inl a5⟩
  · simp only [hoe, if_false] at h
    rcases mem_objInsert _ _ _ _ h with he | h'
    · -- the synthetic other entry
      subst he
      refine ⟨hOnodup, List.nodup_nil,
        fun m hm => absurd hm (List.not_mem_nil m),
        fun m hm => absurd hm (List.not_mem_nil m),
        Or.inr ⟨rfl, ?_⟩⟩
      intro m hm
      rw [hO] at hm
      exact (hOf m hm).1
    · obtain ⟨a1, a2, a3, a4, a5⟩ := hEntry kp h'
      exact ⟨a1, a2, a3, a4, Or.inl a5⟩

/-- The placeholder step always leaves a non-empty model list. -/
theorem placeholderFix_models_ne (k : Str) (p : ProviderB) :
    (placeholderFix k p).models ≠ [] := by
  by_cases he : p.models.isEmpty = true
  · rw [placeholderFix, if_pos he]
    simp
  · rw [placeholderFix, if_neg he]
    intro hc
    rw [hc] at he
    exact he rfl

/-! ## Concrete documents used to settle the claims -/

/-- A block body whose first quoted entry starts at offset 0 (the shape a
trimmed block body always has). -/
def c1body : Str :=
  "\x27a\x27: \x7b contextWindow: 1 \x7d,\n\x27b\x27: \x7b contextWindow: 2 \x7d".data

/-- A document holding one capability block with the two entries of
`c1body`. -/
def c1doc : String :=
  "const openAIModelOptions = \x7b\n\x27a\x27: \x7b contextWindow: 1 \x7d,\n\x27b\x27: \x7b contextWindow: 2 \x7d\n\x7d as const\n"

/-- A provider-settings declaration with two provider keys, each holding a
nested settings object (the shape §6 of the specification requires). -/
def c5doc : String :=
  "export const defaultProviderSettings = \x7b\n    openAI: \x7b\n        k: 1\n    \x7d,\n    anthropic: \x7b\n        k: 2\n    \x7d,\n\x7d\n"

/-- A document declaring one provider and no models at all. -/
def c6doc : String :=
  "export const defaultProviderSettings = \x7b\n    ollama: \x7b\n        k: 1\n    \x7d,\n\x7d\n"

/-- The provider that `parseModelData` produces for `c6doc`. -/
def c6prov : ProviderB :=
  { name := "ollama".data
    models := [{ name := "No models listed for ollama".data, capabilities := {} }]
    description := "Open-source platform for running local models with easy setup and management.".data }

/-- A document whose explicit model list names the same model twice. -/
def c7doc : String :=
  "export const defaultProviderSettings = \x7b\n    openAI: \x7b\n        k: 1\n    \x7d,\n\x7d\nexport const defaultModelsOfProvider = \x7b\n    openAI: [\x27gpt-4o\x27, \x27gpt-4o\x27],\n\x7d\n"

/-- The provider that `parseModelData` produces for `c7doc`: the duplicate
is removed. -/
def c7prov : ProviderB :=
  { name := "openAI".data
    models := [{ name := "gpt-4o".data, capabilities := {} }]
    description := "OpenAI\x27s cutting-edge models known for state-of-the-art performance across a wide range of tasks.".data }

/-- A document with one explicit model and one capability entry that the
keyword heuristic assigns to the same provider; its name sorts before the
explicit model's. -/
def c8doc : String :=
  "export const defaultProviderSettings = \x7b\n    openAI: \x7b\n        k: 1\n    \x7d,\n\x7d\nexport const defaultModelsOfProvider = \x7b\n    openAI: [\x27gpt-4o\x27],\n\x7d\nconst openAIModelOptions = \x7b\n    \x27x\x27: \x7b contextWindow: 1 \x7d,\n    \x27a-gpt\x27: \x7b contextWindow: 2 \x7d\n\x7d as const\n"

/-- The provider that `parseModelData` produces for `c8doc`. -/
def c8prov : ProviderB :=
  { name := "openAI".data
    models :=
      [{ name := "gpt-4o".data, capabilities := {} },
       { name := "a-gpt".data, capabilities := { contextWindow := some (some 2) } }]
    description := "OpenAI\x27s cutting-edge models known for state-of-the-art performance across a wide range of tasks.".data }

/-- A document whose only unclaimed capability entry matches the `llama`
keyword rule, whose target provider `meta` is not declared. -/
def c10doc : String :=
  "export const defaultProviderSettings = \x7b\n    openAI: \x7b\n        k: 1\n    \x7d,\n\x7d\nexport const defaultModelsOfProvider = \x7b\n    openAI: [\x27gpt-4o\x27],\n\x7d\nconst openAIModelOptions = \x7b\n    \x27x\x27: \x7b contextWindow: 1 \x7d,\n    \x27llama-3-groot\x27: \x7b contextWindow: 2 \x7d\n\x7d as const\n"

/-! ## The claims -/

/-- **C1** (code bug): for a block body with two distinct quoted entries
whose first entry starts at offset 0 of the trimmed body, the section
splitter of `extractModelsFromBlock` yields one pair, not two: the entry
pattern matches both entries (second conjunct), but the `lastIndex > 0`
test of src/app.js 418 treats the match at offset 0 as "no previous
match", so the first entry is dropped both from the sections and from the
extracted map. -/
theorem c1_section_splitter_drops_first_entry :
    (buildSections c1body).map Prod.fst = ["b".data] ∧
    (scanModelNames c1body).map Prod.snd = ["a".data, "b".data] ∧
    (scanModelNames c1body).map Prod.fst = [0, 27] ∧
    (extractModelsFromBlock c1doc.data "openAIModelOptions".data []).map
      Prod.fst = ["b".data] := by decide

/-- **C2**: `parseModelData` never raises past its interface: the embedded
try-block body is a total function, so the pipeline boundary always
receives `Except.ok` and `parseModelData` returns its payload; the catch
arm (src/app.js 320-323) that would convert a fault into `{ providers: {} }`
is never reached. -/
theorem c2_parseModelData_never_throws :
    ∀ s : String, parseModelDataTry s.data = Except.ok (parseModelData s) :=
  fun _ => rfl

/-- **C4** (code bug): the name normalization of `findModelDetails` removes
the separator class `[-_\s.]` before the decimal-version replace, so the
version regex never finds a dot and the version digits survive:
`"claude-3.5"` normalizes to `"claude35"`, which still contains `3` and
`5`. -/
theorem c4_normalization_keeps_version_digits :
    normalizeModelName "claude-3.5".data = "claude35".data ∧
    '3' ∈ normalizeModelName "claude-3.5".data ∧
    '5' ∈ normalizeModelName "claude-3.5".data := by decide

/-- **C5** (code bug): the provider-settings capture `\{([^}]+)\}` stops at
the first `}` — the closing brace of the first provider's nested settings
object — so of the two top-level provider keys of `c5doc` only `openAI`
yields a Provider entry; `anthropic` is lost. -/
theorem c5_only_first_provider_extracted :
    (parseModelData c5doc).providers.map Prod.fst = ["openAI".data] ∧
    hasKey (parseModelData c5doc).providers "anthropic".data = false := by decide

/-- **C6**: every Provider in the final output of `parseModelData` has at
least one model: the placeholder step (src/app.js 309-317) replaces an
empty list by one placeholder model. -/
theorem c6_models_nonempty :
    ∀ (s : String) (k : Str) (p : ProviderB),
      (k, p) ∈ (parseModelData s).providers → p.models ≠ [] := by
  intro s k p h
  rw [parseModelData_providers] at h
  obtain ⟨kq, _, he⟩ := List.mem_map.mp h
  rw [Prod.mk.injEq] at he
  obtain ⟨-, he2⟩ := he
  rw [← he2]
  exact placeholderFix_models_ne _ _

theorem c6_models_nonempty_witness :
    (("ollama".data, c6prov) ∈ (parseModelData c6doc).providers) ∧
      c6prov.models ≠ [] :=
  ⟨by decide, c6_models_nonempty c6doc "ollama".data c6prov (by decide)⟩

/-- **C7**: in the final output of `parseModelData` no two models of a
provider share a name, and the duplicate-removal filter keeps exactly the
first occurrence of each name (every model it returns is the first model
with its name in the input list). -/
theorem c7_no_duplicate_model_names :
    (∀ (s : String) (k : Str) (p : ProviderB),
      (k, p) ∈ (parseModelData s).providers → (namesOf p.models).Nodup) ∧
    (∀ (ms : List Model) (m' : Model), m' ∈ dedupModels [] ms →
      firstWithName ms m'.name = some m') := by
  constructor
  · intro s k p h
    rw [parseModelData_providers] at h
    obtain ⟨kq, hkq, he⟩ := List.mem_map.mp h
    rw [Prod.mk.injEq] at he
    obtain ⟨-, he2⟩ := he
    rw [← he2]
    rw [stageMerge] at hkq
    obtain ⟨kr, hkr, he'⟩ := List.mem_map.mp hkq
    rw [Prod.mk.injEq] at he'
    obtain ⟨hf1, hf2⟩ := he'
    rw [← hf1, ← hf2]
    obtain ⟨a1, a2, a3, -, -⟩ := stageOther_mem s.data kr hkr
    by_cases hme : (mergeUnlisted kr.2).models.isEmpty = true
    · rw [placeholderFix, if_pos hme]
      exact List.nodup_singleton _
    · rw [placeholderFix, if_neg hme]
      show (namesOf (kr.2.models ++ kr.2.unlistedModels)).Nodup
      rw [namesOf_append]
      refine List.nodup_append.mpr ⟨a1, a2, ?_⟩
      intro x hx hx'
      obtain ⟨m', hm', he''⟩ := List.mem_map.mp hx'
      have h3 := a3 m' hm'
      rw [he''] at h3
      exact h3 hx
  · intro ms m' h
    exact (dedupModels_mem [] ms m' h).2

theorem c7_no_duplicate_model_names_witness :
    (("openAI".data, c7prov) ∈ (parseModelData c7doc).providers) ∧
      (namesOf c7prov.models).Nodup :=
  ⟨by decide,
   c7_no_duplicate_model_names.1 c7doc "openAI".data c7prov (by decide)⟩

/-- **C8 counterexample**: for `c8doc`, the final `openAI` model list is
`[gpt-4o, a-gpt]` — the keyword-heuristic model `a-gpt` is appended after
the sort of src/app.js 252, so the structure handed to the rendering
collaborator is not sorted by name. -/
theorem c8_output_not_sorted :
    (lookupObj (parseModelData c8doc).providers "openAI".data).map
        (fun p => namesOf p.models) =
      some ["gpt-4o".data, "a-gpt".data] ∧
    (lookupObj (parseModelData c8doc).providers "openAI".data).map
        (fun p => decide (List.Sorted leNameR p.models)) = some false := by
  decide

/-- **C8 amended**: every provider's final model list splits into a sorted
segment (the deduplicated, sorted models of the explicit list or
substring scan, or the placeholder) followed by a tail consisting only of
capability-block entries (the keyword-heuristic assignments and the
synthetic `other` models), which is appended after sorting. -/
theorem c8_sorted_prefix_then_heuristic :
    ∀ (s : String) (k : Str) (p : ProviderB),
      (k, p) ∈ (parseModelData s).providers →
      ∃ xs ys, p.models = xs ++ ys ∧ List.Sorted leNameR xs ∧
        ∀ m ∈ ys, m.name ∈ keysOf (buildModelInfoBlocks s.data) := by
  intro s k p h
  rw [parseModelData_providers] at h
  obtain ⟨kq, hkq, he⟩ := List.mem_map.mp h
  rw [Prod.mk.injEq] at he
  obtain ⟨-, he2⟩ := he
  rw [← he2]
  rw [stageMerge] at hkq
  obtain ⟨kr, hkr, he'⟩ := List.mem_map.mp hkq
  rw [Prod.mk.injEq] at he'
  obtain ⟨hf1, hf2⟩ := he'
  rw [← hf1, ← hf2]
  obtain ⟨-, -, -, a4, a5⟩ := stageOther_mem s.data kr hkr
  by_cases hme : (mergeUnlisted kr.2).models.isEmpty = true
  · rw [placeholderFix, if_pos hme]
    refine ⟨[Model.mk ("No models listed for ".data ++ kr.1) {}], [],
      rfl, ?_, by simp⟩
    exact List.sorted_singleton _
  · rw [placeholderFix, if_neg hme]
    rcases a5 with hs | ⟨hul, hmem⟩
    · exact ⟨kr.2.models, kr.2.unlistedModels, rfl, hs, a4⟩
    · refine ⟨[], kr.2.models, ?_, List.sorted_nil, hmem⟩
      show kr.2.models ++ kr.2.unlistedModels = [] ++ kr.2.models
      rw [hul, List.append_nil, List.nil_append]

theorem c8_sorted_prefix_then_heuristic_witness :
    (("openAI".data, c8prov) ∈ (parseModelData c8doc).providers) ∧
      (∃ xs ys, c8prov.models = xs ++ ys ∧ List.Sorted leNameR xs ∧
        ∀ m ∈ ys, m.name ∈ keysOf (buildModelInfoBlocks c8doc.data)) :=
  ⟨by decide,
   c8_sorted_prefix_then_heuristic c8doc "openAI".data c8prov (by decide)⟩

/-- **C9 counterexample**: a `reservedOutputTokenSpace` field whose value
token is the literal null marker is recorded as the sentinel string
`"Not specified"`, not as the string `"unspecified"` the claim names. -/
theorem c9_sentinel_is_not_specified :
    (parseModelDetails "reservedOutputTokenSpace: null,".data).reservedOutputTokenSpace
        = some (Sum.inr "Not specified".data) ∧
      "Not specified".data ≠ "unspecified".data := by decide

/-- **C9 amended**: when the `reservedOutputTokenSpace` pattern matches
with value token `tok`, the extracted field is the sentinel string
`"Not specified"` if the trimmed token is the literal null marker, and
otherwise the `parseInt` of the token with all non-digit characters
stripped. -/
theorem c9_reserved_output_token_space :
    ∀ (s tok : Str),
      scanField "reservedOutputTokenSpace:".data s = some tok →
      (parseModelDetails s).reservedOutputTokenSpace =
        some (if trimL tok = "null".data then Sum.inr "Not specified".data
          else Sum.inl (jsParseIntDigits ((trimL tok).filter Char.isDigit))) := by
  intro s tok h
  show rotsField s = _
  rw [rotsField, h]
  rfl

theorem c9_reserved_output_token_space_witness :
    (scanField "reservedOutputTokenSpace:".data
        "reservedOutputTokenSpace: 8_192,".data = some "8_192".data) ∧
      (parseModelDetails "reservedOutputTokenSpace: 8_192,".data).reservedOutputTokenSpace =
        some (if trimL "8_192".data = "null".data then Sum.inr "Not specified".data
          else Sum.inl (jsParseIntDigits ((trimL "8_192".data).filter Char.isDigit))) :=
  ⟨by decide, c9_reserved_output_token_space _ _ (by decide)⟩

theorem listIsEmpty_true_iff {α : Type} (l : List α) :
    l.isEmpty = true ↔ l = [] := by
  cases l <;> simp

/-- **C10 counterexample**: in `c10doc` the only capability entry,
`llama-3-groot`, is claimed by no provider but matches the `llama` keyword
rule (hint `meta`); since `meta` is not declared, the entry lands in the
synthetic `other` provider, which therefore appears although every
unclaimed entry matches a keyword rule. -/
theorem c10_other_despite_keyword_match :
    hasKey (parseModelData c10doc).providers "other".data = true ∧
    (buildModelInfoBlocks c10doc.data).map Prod.fst = ["llama-3-groot".data] ∧
    getProviderFromModelName "llama-3-groot".data = some "meta".data ∧
    hasKey (parseModelData c10doc).providers "meta".data = false ∧
    modelAssigned (stageAssoc c10doc.data) "llama-3-groot".data = false := by
  decide

/-- **C10 amended**: when no provider named `other` is declared, the
synthetic `other` provider appears in the output of `parseModelData` iff
some capability entry is claimed by no declared provider and either
matches no keyword rule or matches one whose provider identifier is not
declared; when it appears, its model list is non-empty and consists only of
capability entries (never a placeholder). -/
theorem c10_other_iff :
    ∀ s : String, hasKey (stageAssoc s.data) "other".data = false →
      ((hasKey (parseModelData s).providers "other".data = true ↔
        ∃ kv ∈ buildModelInfoBlocks s.data,
          modelAssigned (stageAssoc s.data) kv.1 = false ∧
          ∀ h, getProviderFromModelName kv.1 = some h →
            hasKey (stageAssoc s.data) h = false) ∧
      (∀ p : ProviderB, ("other".data, p) ∈ (parseModelData s).providers →
        p.models ≠ [] ∧
        ∀ m ∈ p.models, m.name ∈ keysOf (buildModelInfoBlocks s.data))) := by
  intro s hno
  have hsdF : stageDistrib s.data =
      (buildModelInfoBlocks s.data).foldl distribStep
        (stageAssoc s.data, []) := rfl
  obtain ⟨hproj, ⟨addedO, hO, hOf⟩, hU⟩ :=
    distribFold_spec (buildModelInfoBlocks s.data) (stageAssoc s.data, [])
      ((stageAssoc s.data).map projKM) rfl
  rw [List.nil_append] at hO
  rw [← hsdF] at hproj hO
  have hbridge : hasKey (parseModelData s).providers "other".data
      = hasKey (stageOther s.data) "other".data := by
    rw [parseModelData_providers, hasKey_mapVal, stageMerge, hasKey_mapVal]
  have hfoldkey : ∀ k0 : Str,
      hasKey ((stageDistrib s.data).1) k0 = hasKey (stageAssoc s.data) k0 := by
    intro k0
    rw [hasKey_eq_proj, hproj, ← hasKey_eq_proj]
  have hstage : stageOther s.data =
      (if ((stageDistrib s.data).2).isEmpty then (stageDistrib s.data).1
       else objInsert "other".data
         ⟨"other".data, (stageDistrib s.data).2, otherDescription, []⟩
         (stageDistrib s.data).1) := rfl
  constructor
  · constructor
    · -- forward direction of the iff
      intro hk
      rw [hbridge, hstage] at hk
      by_cases hoe : ((stageDistrib s.data).2).isEmpty = true
      · rw [if_pos hoe] at hk
        rw [hfoldkey, hno] at hk
        exact absurd hk (by simp)
      · have hne : (stageDistrib s.data).2 ≠ [] :=
          fun hc => hoe ((listIsEmpty_true_iff _).mpr hc)
        rw [hO] at hne
        obtain ⟨m, hm⟩ := List.exists_mem_of_ne_nil _ hne
        obtain ⟨hmemK, hassign, hhint⟩ := hOf m hm
        obtain ⟨v, hv⟩ := exists_mem_of_mem_keysOf hmemK
        refine ⟨(m.name, v), hv, ?_, ?_⟩
        · rw [modelAssigned_eq_proj]
          exact hassign
        · intro h hh
          rw [hasKey_eq_proj]
          exact hhint h hh
    · -- backward direction of the iff
      rintro ⟨kv, hkv, hassign, hhint⟩
      have hne : (stageDistrib s.data).2 ≠ [] := by
        rw [hsdF]
        apply distribFold_other_ne _ _ ((stageAssoc s.data).map projKM) rfl
        refine ⟨kv, hkv, ?_, ?_⟩
        · rw [← modelAssigned_eq_proj]
          exact hassign
        · intro h hh
          rw [← hasKey_eq_proj]
          exact hhint h hh
      have hoe : ¬ ((stageDistrib s.data).2).isEmpty = true :=
        fun hc => hne ((listIsEmpty_true_iff _).mp hc)
      rw [hbridge, hstage, if_neg hoe]
      exact hasKey_objInsert_self _ _ _
  · -- the other provider, when present, holds only capability entries
    intro p hp
    rw [parseModelData_providers] at hp
    obtain ⟨kq, hkq, he⟩ := List.mem_map.mp hp
    rw [stageMerge] at hkq
    obtain ⟨kr, hkr, he'⟩ := List.mem_map.mp hkq
    subst he'
    rw [Prod.mk.injEq] at he
    obtain ⟨he1, he2⟩ := he
    rw [hstage] at hkr
    by_cases hoe : ((stageDistrib s.data).2).isEmpty = true
    · rw [if_pos hoe] at hkr
      have hk := hasKey_of_mem _ _ hkr
      rw [he1, hfoldkey, hno] at hk
      exact absurd hk (by simp)
    · rw [if_neg hoe] at hkr
      rcases mem_objInsert _ _ _ _ hkr with heq | hmem
      · subst heq
        have hm2 : (mergeUnlisted (⟨"other".data, (stageDistrib s.data).2,
            otherDescription, []⟩ : ProviderB)).models =
            (stageDistrib s.data).2 := by
          show (stageDistrib s.data).2 ++ ([] : List Model) = _
          rw [List.append_nil]
        have hpe : ¬ ((mergeUnlisted (⟨"other".data, (stageDistrib s.data).2,
            otherDescription, []⟩ : ProviderB)).models.isEmpty = true) := by
          rw [hm2]
          exact hoe
        rw [placeholderFix, if_neg hpe] at he2
        rw [← he2]
        constructor
        · rw [hm2]
          exact fun hc => hoe ((listIsEmpty_true_iff _).mpr hc)
        · intro m hm
          rw [hm2, hO] at hm
          exact (hOf m hm).1
      · have hk := hasKey_of_mem _ _ hmem
        rw [he1, hfoldkey, hno] at hk
        exact absurd hk (by simp)

theorem c10_other_iff_witness :
    (hasKey (stageAssoc c10doc.data) "other".data = false) ∧
      ((hasKey (parseModelData c10doc).providers "other".data = true ↔
        ∃ kv ∈ buildModelInfoBlocks c10doc.data,
          modelAssigned (stageAssoc c10doc.data) kv.1 = false ∧
          ∀ h, getProviderFromModelName kv.1 = some h →
            hasKey (stageAssoc c10doc.data) h = false) ∧
      (∀ p : ProviderB, ("other".data, p) ∈ (parseModelData c10doc).providers →
        p.models ≠ [] ∧
        ∀ m ∈ p.models, m.name ∈ keysOf (buildModelInfoBlocks c10doc.data))) :=
  ⟨by decide, c10_other_iff c10doc (by decide)⟩

end AppJs
